import Mathlib

/-!
Verification of the light-os health API core against its specification.

The development shallowly embeds, in Lean, the parts of the code base the
claims speak about:

* `app/rate_limiter.py` — the continuous token-bucket script and the
  admission middleware;
* `app/cache.py` — the read-through cache helpers and the version oracle;
* `app/services/health_service.py` — cursor codec, date parsing, the
  paginated query engine and the derived summary operation.

Machine-level collaborators (Redis, Firestore, the HTTP stack) are modelled
as explicit parameters: a Redis client is a record of operations returning
`Except`, the Firestore query result is the ordered list of documents the
stream yields, and the downstream handler of the middleware is the response
it would produce.
-/

namespace RateLimiter

/-- A rate-limit bucket as stored in the Redis hash: fields `tokens` and
`last_refill`.  Numbers are modelled as rationals (Lua numbers are doubles;
the algebra the claims need is exact). -/
structure Bucket where
  tokens : ℚ
  last_refill : ℚ
deriving Repr, DecidableEq

/-- One execution of `TOKEN_BUCKET_SCRIPT` (rate_limiter.py lines 17-42) on
a bucket state (`none` = key absent).  `HMGET` of an absent key gives nils,
so `tokens` defaults to `capacity` and `last_refill` to `now`.  Returns the
script's result (`1` = allowed, `0` = limited) and the persisted bucket. -/
def tokenBucketScript (capacity rate now tokensRequested : ℚ)
    (st : Option Bucket) : Bool × Bucket :=
  let tokens0 := (st.map Bucket.tokens).getD capacity
  let lastRefill := (st.map Bucket.last_refill).getD now
  let elapsed := now - lastRefill
  let tokensToAdd := elapsed * rate
  let tokens := min capacity (tokens0 + tokensToAdd)
  if tokens < tokensRequested then
    (false, ⟨tokens, now⟩)
  else
    (true, ⟨tokens - tokensRequested, now⟩)

/-- Trajectory of bucket states along a sequence of check times, starting
from state `st` (a fresh bucket is `none`). -/
def bucketRun (capacity rate tokensRequested : ℚ) :
    Option Bucket → List ℚ → List Bucket
  | _, [] => []
  | st, t :: ts =>
    let next := (tokenBucketScript capacity rate t tokensRequested st).2
    next :: bucketRun capacity rate tokensRequested (some next) ts

end RateLimiter

namespace Cache

/-- Errors of the shared key-value store (connection loss, timeout, ...);
the payload is irrelevant to the claims, one constructor suffices. -/
inductive StoreErr
  | err
deriving Repr, DecidableEq

/-- A connected Redis client, as the cache module uses it: each operation
either returns a value or raises a store error. -/
structure RedisClient where
  get : String → Except StoreErr (Option (List Nat))
  setex : String → Nat → List Nat → Except StoreErr Unit
  incr : String → Except StoreErr Int
  del : String → Except StoreErr Int

/-- `cache.get` (cache.py lines 53-62): without a client, degrade to a
miss; with one, call `r.get(key)` directly — there is no `try` around it,
so a store error propagates. -/
def cacheGet (r? : Option RedisClient) (key : String) :
    Except StoreErr (Option (List Nat)) :=
  match r? with
  | none => .ok none
  | some r => r.get key

/-- `cache.set` (cache.py lines 65-75): without a client, a no-op; with
one, `r.setex` inside `try/except Exception`, so a store error is caught
and logged and the call returns normally. -/
def cacheSet (r? : Option RedisClient) (key : String) (value : List Nat)
    (ex : Nat) : Except StoreErr Unit :=
  match r? with
  | none => .ok ()
  | some r =>
    match r.setex key ex value with
    | .ok _ => .ok ()
    | .error _ => .ok ()

/-- `cache.bump_user_version` (cache.py lines 103-108): without a client, a
no-op; with one, `r.incr(f"version:{user_id}")` with no `try`, so a store
error propagates. -/
def bumpUserVersion (r? : Option RedisClient) (userId : String) :
    Except StoreErr Unit :=
  match r? with
  | none => .ok ()
  | some r => (r.incr ("version:" ++ userId)).map fun _ => ()

/-- A client whose every operation raises, standing for a connected store
that errors mid-call. -/
def failingClient : RedisClient where
  get := fun _ => .error .err
  setex := fun _ _ _ => .error .err
  incr := fun _ => .error .err
  del := fun _ => .error .err

end Cache

namespace RateLimiter

/-- Python `str.lower` restricted to ASCII letters (the only case that can
make a string compare equal to `"true"`). -/
def pyLower (s : String) : String :=
  ⟨s.data.map fun c => if 'A' ≤ c ∧ c ≤ 'Z' then Char.ofNat (c.toNat + 32) else c⟩

/-- `DISABLE_RATE_LIMIT = os.getenv("DISABLE_RATE_LIMIT", "false").lower() == "true"`
(rate_limiter.py line 10), as a function of the environment variable's
value (`none` = unset). -/
def disableFromEnv (v? : Option String) : Bool :=
  pyLower (v?.getD "false") == "true"

def AUTH_RATE : ℚ := 2
def AUTH_CAPACITY : ℤ := 30
def ANON_RATE : ℚ := 1 / 2
def ANON_CAPACITY : ℤ := 10

/-- The inbound request facts the middleware looks at. -/
structure RequestCtx where
  state_user_id : Option String
  x_forwarded_for : Option String
  client_host : Option String

/-- An HTTP response: status, headers in order, body. -/
structure Response where
  status : Nat
  headers : List (String × String)
  body : String
deriving Repr, DecidableEq

/-- `get_client_ip` (rate_limiter.py lines 97-102): first entry of
`X-Forwarded-For` (when the header is present and non-empty), else the
transport peer address, else `"unknown"`. -/
def getClientIp (req : RequestCtx) : String :=
  match req.x_forwarded_for with
  | some f => if f ≠ "" then (((f.splitOn ",").headD "").trim) else req.client_host.getD "unknown"
  | none => req.client_host.getD "unknown"

/-- `check_rate_limit` (rate_limiter.py lines 105-119): no client or no
script SHA ⇒ allow; otherwise the script's verdict, with an `evalsha`
error degrading to allow. -/
def checkRateLimit (redisAvailable : Bool) (scriptSha : Option String)
    (evalResult : Except Unit Bool) : Bool :=
  if !redisAvailable || scriptSha.isNone then true
  else
    match evalResult with
    | .ok b => b
    | .error _ => true

/-- Python `f"{q:.1f}"` for a non-negative rational: one decimal digit,
ties rounded to even. -/
def fmtRate1 (q : ℚ) : String :=
  let scaled : ℚ := q * 10
  let fl : ℤ := ⌊scaled⌋
  let frac : ℚ := scaled - fl
  let n : ℤ :=
    if frac > 1 / 2 then fl + 1
    else if frac < 1 / 2 then fl
    else if fl % 2 = 0 then fl else fl + 1
  toString (n / 10) ++ "." ++ toString (n % 10)

/-- `rate_limit_middleware` (rate_limiter.py lines 122-151).  `inner` is
the response `call_next` would produce; `redisAvailable`/`evalResult`
describe the store's behaviour for this request.  The second component
records whether `check_rate_limit` was invoked (the only path that can
touch the shared store). -/
def rateLimitMiddleware (disable : Bool) (scriptSha : Option String)
    (req : RequestCtx) (redisAvailable : Bool) (evalResult : Except Unit Bool)
    (inner : Response) : Response × Bool :=
  if disable then (inner, false)
  else
    let tier : String × ℚ × ℤ :=
      match req.state_user_id with
      | some uid => ("user:" ++ uid, AUTH_RATE, AUTH_CAPACITY)
      | none => ("ip:" ++ getClientIp req, ANON_RATE, ANON_CAPACITY)
    let rate := tier.2.1
    let capacity := tier.2.2
    match scriptSha with
    | none => (inner, false)
    | some sha =>
      if checkRateLimit redisAvailable (some sha) evalResult then
        ({ inner with
            headers := inner.headers ++
              [("X-RateLimit-Limit", toString capacity),
               ("X-RateLimit-Rate", fmtRate1 rate ++ "/s"),
               ("X-RateLimit-Burst", toString capacity)] }, true)
      else
        ({ status := 429,
           headers := [("Retry-After", "60")],
           body := "Rate limit exceeded" }, true)

end RateLimiter

namespace Py

end Py

/-- A Python `datetime.datetime`: calendar fields plus an optional fixed
UTC offset in minutes (`none` = naive, `some 0` = `timezone.utc`). -/
structure Datetime where
  year : ℕ
  month : ℕ
  day : ℕ
  hour : ℕ
  minute : ℕ
  second : ℕ
  microsecond : ℕ
  tz : Option ℤ
deriving Repr, DecidableEq

namespace HealthSvc

def isLeapYear (y : ℕ) : Bool := y % 4 = 0 && (y % 100 != 0 || y % 400 = 0)

/-- Length of a month, as the `datetime` constructor validates it. -/
def daysInMonth (y m : ℕ) : ℕ :=
  if m = 2 then (if isLeapYear y then 29 else 28)
  else if m = 4 ∨ m = 6 ∨ m = 9 ∨ m = 11 then 30
  else 31

end HealthSvc


namespace PyCodec

/-- The code points of an ASCII Lean string literal, used to write byte and
code-point lists readably.  Python strings are modelled as lists of code
points (`List ℕ`), which unlike Lean `Char` admits lone surrogates, exactly
as Python `str` does. -/
def asciiOf (s : String) : List Nat := s.data.map Char.toNat

/-- Well-formed Unicode text: scalar values only (no lone surrogates). -/
def validUnicode (s : List Nat) : Prop :=
  ∀ c ∈ s, c < 0x110000 ∧ ¬(0xD800 ≤ c ∧ c ≤ 0xDFFF)

instance (s : List Nat) : Decidable (validUnicode s) := by
  unfold validUnicode; infer_instance

/-- UTF-8 encoding of one scalar value (1-4 bytes). -/
def utf8EncodeChar (c : Nat) : List Nat :=
  if c < 0x80 then [c]
  else if c < 0x800 then [0xC0 + c / 64, 0x80 + c % 64]
  else if c < 0x10000 then [0xE0 + c / 4096, 0x80 + c / 64 % 64, 0x80 + c % 64]
  else [0xF0 + c / 262144, 0x80 + c / 4096 % 64, 0x80 + c / 64 % 64,
    0x80 + c % 64]

/-- Python `str.encode()` (UTF-8): fails with `UnicodeEncodeError` — a
`ValueError` — on lone surrogates, otherwise concatenates the per-character
encodings. -/
def pyStrEncode (s : List Nat) : Except Unit (List Nat) :=
  if validUnicode s then .ok (s.map utf8EncodeChar).flatten else .error ()

/-- Decode one UTF-8 sequence from the front: strict about continuation
ranges, overlongs, surrogates and the Unicode upper bound. -/
def utf8DecodeOne : List Nat → Option (Nat × List Nat)
  | [] => none
  | b :: rest =>
    if b < 0x80 then some (b, rest)
    else if 0xC2 ≤ b ∧ b ≤ 0xDF then
      match rest with
      | b2 :: rest2 =>
        if 0x80 ≤ b2 ∧ b2 ≤ 0xBF then
          some ((b - 0xC0) * 64 + (b2 - 0x80), rest2)
        else none
      | _ => none
    else if 0xE0 ≤ b ∧ b ≤ 0xEF then
      match rest with
      | b2 :: b3 :: rest2 =>
        if (0x80 ≤ b2 ∧ b2 ≤ 0xBF) ∧ (0x80 ≤ b3 ∧ b3 ≤ 0xBF) ∧
            (b = 0xE0 → 0xA0 ≤ b2) ∧ (b = 0xED → b2 ≤ 0x9F) then
          some ((b - 0xE0) * 4096 + (b2 - 0x80) * 64 + (b3 - 0x80), rest2)
        else none
      | _ => none
    else if 0xF0 ≤ b ∧ b ≤ 0xF4 then
      match rest with
      | b2 :: b3 :: b4 :: rest2 =>
        if (0x80 ≤ b2 ∧ b2 ≤ 0xBF) ∧ (0x80 ≤ b3 ∧ b3 ≤ 0xBF) ∧
            (0x80 ≤ b4 ∧ b4 ≤ 0xBF) ∧ (b = 0xF0 → 0x90 ≤ b2) ∧
            (b = 0xF4 → b2 ≤ 0x8F) then
          some ((b - 0xF0) * 262144 + (b2 - 0x80) * 4096 + (b3 - 0x80) * 64 +
            (b4 - 0x80), rest2)
        else none
      | _ => none
    else none

/-- Sequence-by-sequence decoding loop.  The fuel only serves termination:
every sequence consumes at least one byte, so starting the loop with the
input length the fuel can never run out first. -/
def utf8DecodeLoop : Nat → List Nat → Except Unit (List Nat)
  | _, [] => .ok []
  | 0, _ :: _ => .error ()
  | fuel + 1, b :: rest =>
    match utf8DecodeOne (b :: rest) with
    | none => .error ()
    | some (c, rest2) => (utf8DecodeLoop fuel rest2).map (c :: ·)

/-- Python `bytes.decode()` (strict UTF-8): rejects ill-formed sequences —
truncated, overlong, surrogates, out-of-range — with `UnicodeDecodeError`,
a `ValueError`. -/
def utf8Decode (l : List Nat) : Except Unit (List Nat) :=
  utf8DecodeLoop l.length l

/-- Standard base64 alphabet: 6-bit value to ASCII code. -/
def b64Char (n : Nat) : Nat :=
  if n < 26 then 65 + n
  else if n < 52 then 97 + (n - 26)
  else if n < 62 then 48 + (n - 52)
  else if n = 62 then 43
  else 47

/-- Standard base64 alphabet: ASCII code to 6-bit value. -/
def b64Value (b : Nat) : Option Nat :=
  if 65 ≤ b ∧ b ≤ 90 then some (b - 65)
  else if 97 ≤ b ∧ b ≤ 122 then some (b - 97 + 26)
  else if 48 ≤ b ∧ b ≤ 57 then some (b - 48 + 52)
  else if b = 43 then some 62
  else if b = 47 then some 63
  else none

/-- `base64.b64encode`: three bytes to four alphabet characters, with
`'='` (61) padding for a final one- or two-byte group. -/
def b64EncodeChunks : List Nat → List Nat
  | a :: b :: c :: rest =>
    b64Char (a / 4) :: b64Char (a % 4 * 16 + b / 16) ::
      b64Char (b % 16 * 4 + c / 64) :: b64Char (c % 64) ::
      b64EncodeChunks rest
  | [a, b] => [b64Char (a / 4), b64Char (a % 4 * 16 + b / 16),
      b64Char (b % 16 * 4), 61]
  | [a] => [b64Char (a / 4), b64Char (a % 4 * 16), 61, 61]
  | [] => []

/-- A base64 input symbol: a data character's 6-bit value, or padding. -/
inductive B64Tok
  | data (v : Nat)
  | pad
deriving Repr, DecidableEq

/-- `binascii.a2b_base64` in its default non-strict mode discards every
byte that is neither an alphabet character nor `'='`. -/
def b64Tokens (bs : List Nat) : List B64Tok :=
  bs.filterMap fun b =>
    match b64Value b with
    | some v => some (.data v)
    | none => if b = 61 then some .pad else none

/-- Non-strict base64 decoding over the token stream: full quads yield
three bytes; a quad completed by padding yields one or two bytes and ends
the data (bytes after padding are discarded); any other shape — e.g. a
trailing group without padding — raises `binascii.Error`, a `ValueError`. -/
def b64DecodeTokens : List B64Tok → Except Unit (List Nat)
  | [] => .ok []
  | .data a :: .data b :: .data c :: .data d :: rest =>
    (b64DecodeTokens rest).map
      (fun t => (a * 4 + b / 16) :: (b % 16 * 16 + c / 4) ::
        (c % 4 * 64 + d) :: t)
  | .data a :: .data b :: .pad :: _ => .ok [a * 4 + b / 16]
  | .data a :: .data b :: .data c :: .pad :: _ =>
    .ok [a * 4 + b / 16, b % 16 * 16 + c / 4]
  | _ => .error ()

/-- `base64.b64decode` on bytes. -/
def b64Decode (bs : List Nat) : Except Unit (List Nat) :=
  b64DecodeTokens (b64Tokens bs)

end PyCodec

namespace PyCodec

/-- A parsed JSON value.  Numbers keep their lexeme: the cursor paths never
inspect a numeric value, only whether the value is a string or a mapping. -/
inductive JValue
  | null
  | bool (b : Bool)
  | num (lexeme : List Nat)
  | str (s : List Nat)
  | arr (xs : List JValue)
  | obj (kvs : List (List Nat × JValue))

/-- Lowercase hex digit of a value below 16. -/
def hexDigitL (n : Nat) : Nat := if n < 10 then 48 + n else 87 + n

/-- Hex digit value of an ASCII code (`0-9a-fA-F`). -/
def hexVal (b : Nat) : Option Nat :=
  if 48 ≤ b ∧ b ≤ 57 then some (b - 48)
  else if 97 ≤ b ∧ b ≤ 102 then some (b - 97 + 10)
  else if 65 ≤ b ∧ b ≤ 70 then some (b - 65 + 10)
  else none

def hex4 (a b c d : Nat) : Option Nat := do
  let v1 ← hexVal a
  let v2 ← hexVal b
  let v3 ← hexVal c
  let v4 ← hexVal d
  pure (v1 * 4096 + v2 * 256 + v3 * 16 + v4)

/-- A `\uXXXX` escape (lowercase hex, as `json.dumps` emits). -/
def u4 (n : Nat) : List Nat :=
  [92, 117, hexDigitL (n / 4096 % 16), hexDigitL (n / 256 % 16),
   hexDigitL (n / 16 % 16), hexDigitL (n % 16)]

/-- `json.dumps` (default `ensure_ascii=True`) escaping of one character:
the two-character escapes for quote, backslash and the common controls,
`\uXXXX` for other controls and all non-ASCII below 0x10000 (lone
surrogates included), and a surrogate pair of escapes above it. -/
def escapeChar (c : Nat) : List Nat :=
  if c = 0x22 then [92, 0x22]
  else if c = 92 then [92, 92]
  else if c = 8 then [92, 98]
  else if c = 12 then [92, 102]
  else if c = 10 then [92, 110]
  else if c = 13 then [92, 114]
  else if c = 9 then [92, 116]
  else if c < 0x20 then u4 c
  else if c < 0x7F then [c]
  else if c < 0x10000 then u4 c
  else u4 (0xD800 + (c - 0x10000) / 0x400) ++ u4 (0xDC00 + (c - 0x10000) % 0x400)

def escapeString (s : List Nat) : List Nat := (s.map escapeChar).flatten

/-- The value of a two-character escape (`\" \\ \/ \b \f \n \r \t`). -/
def escCharVal (e : Nat) : Option Nat :=
  if e = 0x22 then some 0x22
  else if e = 92 then some 92
  else if e = 47 then some 47
  else if e = 98 then some 8
  else if e = 102 then some 12
  else if e = 110 then some 10
  else if e = 114 then some 13
  else if e = 116 then some 9
  else none

/-- One string item of `json.loads` string scanning: a literal character
(which must be `0x20` or above) or one escape; a `\\uXXXX` high-surrogate
escape directly followed by a low-surrogate escape combines into one code
point, and a lone surrogate escape stays as is, as CPython's decoder does.
Never called on the closing quote. -/
def scanUEscape : List Nat → Option (Nat × List Nat)
  | a :: b :: c2 :: d :: rest3 =>
    (match hex4 a b c2 d with
    | none => none
    | some n =>
      if 0xD800 ≤ n ∧ n ≤ 0xDBFF then
        match rest3 with
        | 92 :: 117 :: a2 :: b2 :: c3 :: d2 :: rest4 =>
          (match hex4 a2 b2 c3 d2 with
          | some n2 =>
            if 0xDC00 ≤ n2 ∧ n2 ≤ 0xDFFF then
              some (0x10000 + (n - 0xD800) * 0x400 + (n2 - 0xDC00), rest4)
            else some (n, rest3)
          | none => some (n, rest3))
        | _ => some (n, rest3)
      else some (n, rest3))
  | _ => none

def scanJItem : List Nat → Option (Nat × List Nat)
  | [] => none
  | c :: rest =>
    if c = 92 then
      match rest with
      | e :: rest2 =>
        if e = 117 then scanUEscape rest2
        else
          match escCharVal e with
          | some v => some (v, rest2)
          | none => none
      | [] => none
    else if c < 0x20 then none
    else some (c, rest)

/-- String scanning loop: stop at the closing quote, otherwise scan one
item and continue.  The fuel only serves termination: an item consumes at
least one character, so the input length is always enough fuel. -/
def scanJStringLoop : Nat → List Nat → Option (List Nat × List Nat)
  | _, [] => none
  | 0, _ :: _ => none
  | fuel + 1, c :: rest =>
    if c = 0x22 then some ([], rest)
    else
      match scanJItem (c :: rest) with
      | none => none
      | some (v, rest2) =>
        (scanJStringLoop fuel rest2).map (fun p => (v :: p.1, p.2))

/-- `json.loads` string scanning, after the opening quote: returns the
string and the input after the closing quote. -/
def scanJString (l : List Nat) : Option (List Nat × List Nat) :=
  scanJStringLoop l.length l

def isDigitByte (b : Nat) : Bool := 48 ≤ b && b ≤ 57

/-- `json.loads` number lexeme: `-?(0|[1-9][0-9]*)(\.[0-9]+)?([eE][+-]?[0-9]+)?`.
Returns the lexeme and the rest. -/
def scanJNumber (l : List Nat) : Option (List Nat × List Nat) :=
  let (neg, l1) := match l with
    | 45 :: r => ([45], r)
    | _ => (([] : List Nat), l)
  match l1 with
  | [] => none
  | d :: r =>
    if d = 48 then
      let (frac, r2) := scanFracExp r
      some (neg ++ [48] ++ frac, r2)
    else if isDigitByte d then
      let digits := r.takeWhile isDigitByte
      let r1 := r.dropWhile isDigitByte
      let (frac, r2) := scanFracExp r1
      some (neg ++ [d] ++ digits ++ frac, r2)
    else none
where
  scanFracExp (l : List Nat) : List Nat × List Nat :=
    let (fr, l1) := match l with
      | 46 :: r =>
        let ds := r.takeWhile isDigitByte
        if ds = [] then (([] : List Nat), l)
        else (46 :: ds, r.dropWhile isDigitByte)
      | _ => (([] : List Nat), l)
    let (ex, l2) := match l1 with
      | e :: r =>
        if e = 101 ∨ e = 69 then
          let (sign, r1) := match r with
            | s :: r' => if s = 43 ∨ s = 45 then ([s], r') else (([] : List Nat), r)
            | [] => (([] : List Nat), r)
          let ds := r1.takeWhile isDigitByte
          if ds = [] then (([] : List Nat), l1)
          else (e :: sign ++ ds, r1.dropWhile isDigitByte)
        else (([] : List Nat), l1)
      | [] => (([] : List Nat), l1)
    (fr ++ ex, l2)

/-- JSON whitespace skipping (space, tab, LF, CR). -/
def skipWs (l : List Nat) : List Nat :=
  l.dropWhile fun b => b = 0x20 || b = 9 || b = 10 || b = 13

mutual

/-- `json.loads` value grammar, fuel-indexed (the fuel only bounds nesting
depth; the wrapper passes more than the input length can ever need, so the
bound is never the deciding factor — CPython's own recursion limit is not
modelled). -/
def parseJValue : Nat → List Nat → Option (JValue × List Nat)
  | 0, _ => none
  | fuel + 1, l =>
    match skipWs l with
    | [] => none
    | c :: rest =>
      if c = 0x22 then (scanJString rest).map (fun p => (.str p.1, p.2))
      else if c = 0x7B then
        match skipWs rest with
        | 0x7D :: rest2 => some (.obj [], rest2)
        | _ => (parseJMembers fuel (skipWs rest)).map (fun p => (.obj p.1, p.2))
      else if c = 0x5B then
        match skipWs rest with
        | 0x5D :: rest2 => some (.arr [], rest2)
        | _ => (parseJElements fuel (skipWs rest)).map (fun p => (.arr p.1, p.2))
      else if c = 110 then
        match rest with
        | 117 :: 108 :: 108 :: rest2 => some (.null, rest2)
        | _ => none
      else if c = 116 then
        match rest with
        | 114 :: 117 :: 101 :: rest2 => some (.bool true, rest2)
        | _ => none
      else if c = 102 then
        match rest with
        | 97 :: 108 :: 115 :: 101 :: rest2 => some (.bool false, rest2)
        | _ => none
      else
        (scanJNumber (c :: rest)).map (fun p => (.num p.1, p.2))

/-- Object members: `"key": value` separated by commas, ending at `}`. -/
def parseJMembers : Nat → List Nat → Option (List (List Nat × JValue) × List Nat)
  | 0, _ => none
  | fuel + 1, l =>
    match l with
    | 0x22 :: rest =>
      match scanJString rest with
      | none => none
      | some (key, rest2) =>
        match skipWs rest2 with
        | 58 :: rest3 =>
          match parseJValue fuel rest3 with
          | none => none
          | some (v, rest4) =>
            match skipWs rest4 with
            | 44 :: rest5 =>
              (parseJMembers fuel (skipWs rest5)).map
                (fun p => ((key, v) :: p.1, p.2))
            | 0x7D :: rest5 => some ([(key, v)], rest5)
            | _ => none
        | _ => none
    | _ => none

/-- Array elements separated by commas, ending at `]`. -/
def parseJElements : Nat → List Nat → Option (List JValue × List Nat)
  | 0, _ => none
  | fuel + 1, l =>
    match parseJValue fuel l with
    | none => none
    | some (v, rest) =>
      match skipWs rest with
      | 44 :: rest2 => (parseJElements fuel rest2).map (fun p => (v :: p.1, p.2))
      | 0x5D :: rest2 => some ([v], rest2)
      | _ => none

end

/-- `json.loads`: parse one value and require only whitespace after it;
any failure is `json.JSONDecodeError`, a `ValueError`. -/
def jsonLoads (s : List Nat) : Option JValue :=
  match parseJValue (2 * s.length + 2) s with
  | some (v, rest) => if skipWs rest = [] then some v else none
  | none => none

end PyCodec

namespace PyCodec

def npad2 (n : Nat) : List Nat := [48 + n / 10 % 10, 48 + n % 10]

def npad4 (n : Nat) : List Nat :=
  [48 + n / 1000 % 10, 48 + n / 100 % 10, 48 + n / 10 % 10, 48 + n % 10]

def npad6 (n : Nat) : List Nat :=
  [48 + n / 100000 % 10, 48 + n / 10000 % 10, 48 + n / 1000 % 10,
   48 + n / 100 % 10, 48 + n / 10 % 10, 48 + n % 10]

/-- `datetime.isoformat()`: `YYYY-MM-DDTHH:MM:SS`, the microseconds as
`.ffffff` only when non-zero, and `±HH:MM` for an aware datetime. -/
def isoformat (t : Datetime) : List Nat :=
  npad4 t.year ++ 45 :: npad2 t.month ++ 45 :: npad2 t.day ++ 84 ::
    npad2 t.hour ++ 58 :: npad2 t.minute ++ 58 :: npad2 t.second ++
    (if t.microsecond ≠ 0 then 46 :: npad6 t.microsecond else []) ++
    (match t.tz with
     | none => []
     | some o =>
       (if o < 0 then [45] else [43]) ++ npad2 (o.natAbs / 60) ++ 58 ::
         npad2 (o.natAbs % 60))

def digit? (b : Nat) : Option Nat :=
  if 48 ≤ b ∧ b ≤ 57 then some (b - 48) else none

def nparse2 : List Nat → Option (Nat × List Nat)
  | a :: b :: r => do pure ((← digit? a) * 10 + (← digit? b), r)
  | _ => none

def nparse4 : List Nat → Option (Nat × List Nat)
  | a :: b :: c :: d :: r => do
    pure ((← digit? a) * 1000 + (← digit? b) * 100 + (← digit? c) * 10 +
      (← digit? d), r)
  | _ => none

def expectByte (b : Nat) : List Nat → Option (List Nat)
  | c :: rest => if c = b then some rest else none
  | _ => none

def digitsVal (ds : List Nat) : Nat :=
  ds.foldl (fun acc b => acc * 10 + (b - 48)) 0

/-- Time-of-day part of `datetime.fromisoformat`: `HH[:MM[:SS[.f{1,6}]]]`
(a comma is also accepted before the fraction).  The C parser's compact
colon-free forms are not modelled; this only narrows which strings parse,
not the exception class of a failure. -/
def parseTimeOfDay (l : List Nat) : Option (Nat × Nat × Nat × Nat × List Nat) := do
  let (hh, r1) ← nparse2 l
  match r1 with
  | 58 :: r2 =>
    let (mi, r3) ← nparse2 r2
    match r3 with
    | 58 :: r4 =>
      let (ss, r5) ← nparse2 r4
      match r5 with
      | 46 :: r6 => parseFrac hh mi ss r6
      | 44 :: r6 => parseFrac hh mi ss r6
      | _ => pure (hh, mi, ss, 0, r5)
    | _ => pure (hh, mi, 0, 0, r3)
  | _ => pure (hh, 0, 0, 0, r1)
where
  parseFrac (hh mi ss : Nat) (r : List Nat) :
      Option (Nat × Nat × Nat × Nat × List Nat) :=
    let ds := r.takeWhile isDigitByte
    if ds = [] ∨ 6 < ds.length then none
    else some (hh, mi, ss, digitsVal ds * 10 ^ (6 - ds.length),
      r.dropWhile isDigitByte)

/-- Offset `HH[:MM]` after the sign, in minutes. -/
def parseOffsetHM (l : List Nat) : Option (Nat × List Nat) := do
  let (hh, r1) ← nparse2 l
  let (mm, r2) ←
    match r1 with
    | 58 :: r => nparse2 r
    | _ => some (0, r1)
  if hh ≤ 23 ∧ mm ≤ 59 then pure (hh * 60 + mm, r2) else none

/-- Offset part of `fromisoformat`: nothing (naive), `Z`/`z` (UTC), or a
signed `HH[:MM]`. -/
def parseTzOffset : List Nat → Option (Option Int × List Nat)
  | [] => some (none, [])
  | 90 :: r => some (some 0, r)
  | 122 :: r => some (some 0, r)
  | 43 :: r => (parseOffsetHM r).map (fun p => (some (p.1 : Int), p.2))
  | 45 :: r => (parseOffsetHM r).map (fun p => (some (-(p.1 : Int)), p.2))
  | _ => none

/-- `datetime.fromisoformat` (extended format subset): date `YYYY-MM-DD`,
then optionally any single separator character, a time of day and an
offset; every field range-checked as the `datetime` constructor does.  Any
failure is a `ValueError`. -/
def fromIso (s : List Nat) : Option Datetime := do
  let (y, r1) ← nparse4 s
  let r2 ← expectByte 45 r1
  let (mo, r3) ← nparse2 r2
  let r4 ← expectByte 45 r3
  let (d, r5) ← nparse2 r4
  if 1 ≤ y ∧ y ≤ 9999 ∧ 1 ≤ mo ∧ mo ≤ 12 ∧ 1 ≤ d ∧
      d ≤ HealthSvc.daysInMonth y mo then
    match r5 with
    | [] => pure ⟨y, mo, d, 0, 0, 0, 0, none⟩
    | _ :: r6 => do
      let (hh, mi, ss, us, r7) ← parseTimeOfDay r6
      let (tz, r8) ← parseTzOffset r7
      if r8 = [] ∧ hh < 24 ∧ mi < 60 ∧ ss < 60 ∧ us < 1000000 then
        pure ⟨y, mo, d, hh, mi, ss, us, tz⟩
      else none
  else none

/-- `json.dumps({"timestamp": ts, "id": i})` with the default separators
and `ensure_ascii=True`. -/
def dumpsCursorObj (ts i : List Nat) : List Nat :=
  asciiOf "\x7b\"timestamp\": \"" ++ escapeString ts ++
    asciiOf "\", \"id\": \"" ++ escapeString i ++ asciiOf "\"\x7d"

/-- Python dict subscription on the parsed JSON object: with duplicate
keys `json.loads` keeps the last occurrence. -/
def jlookup (k : List Nat) (kvs : List (List Nat × JValue)) : Option JValue :=
  (kvs.reverse.find? (fun p => p.1 == k)).map Prod.snd

end PyCodec

namespace HealthSvc

open PyCodec

/-- `HealthService.encode_cursor` (health_service.py lines 128-135):
serialize `{"timestamp": timestamp.isoformat(), "id": doc_id}`, UTF-8
encode and base64-encode.  `json.dumps` with `ensure_ascii` emits pure
ASCII, whose UTF-8 encoding is the identity on code points, so the
`.encode()` step is folded into the serialization. -/
def encodeCursor (timestamp : Datetime) (docId : List Nat) : List Nat :=
  b64EncodeChunks (dumpsCursorObj (isoformat timestamp) docId)

/-- The exceptions `decode_cursor` can raise: the `except (ValueError,
KeyError, json.JSONDecodeError)` clause re-raises those three classes as
`ValueError("Invalid cursor format: ...")`; a `TypeError` — subscripting a
non-dict, or `fromisoformat` applied to a non-string — is not caught and
escapes as itself. -/
inductive CursorErr
  | invalidCursor
  | typeError
deriving Repr, DecidableEq

/-- `HealthService.decode_cursor` (health_service.py lines 137-148).
`cursor.encode()` fails only on lone surrogates (`UnicodeEncodeError ⊂
ValueError`); `b64decode` raises `binascii.Error ⊂ ValueError`;
`bytes.decode()` raises `UnicodeDecodeError ⊂ ValueError`; `json.loads`
raises `JSONDecodeError ⊂ ValueError`; a missing key raises `KeyError`.
All of those are re-raised as the invalid-cursor `ValueError`.  The
returned id is whatever JSON value sits under `"id"` — the code never
checks its type. -/
def decodeCursor (cursor : List Nat) : Except CursorErr (Datetime × JValue) :=
  match pyStrEncode cursor with
  | .error _ => .error .invalidCursor
  | .ok bs =>
    match b64Decode bs with
    | .error _ => .error .invalidCursor
    | .ok decoded =>
      match utf8Decode decoded with
      | .error _ => .error .invalidCursor
      | .ok text =>
        match jsonLoads text with
        | none => .error .invalidCursor
        | some (.obj kvs) =>
          match jlookup (asciiOf "timestamp") kvs with
          | none => .error .invalidCursor
          | some (.str ts) =>
            match fromIso ts with
            | none => .error .invalidCursor
            | some t =>
              let t' := if t.tz = none then { t with tz := some (0 : Int) } else t
              match jlookup (asciiOf "id") kvs with
              | none => .error .invalidCursor
              | some v => .ok (t', v)
          | some _ => .error .typeError
        | some _ => .error .typeError

end HealthSvc


namespace HealthSvc

open PyCodec

end HealthSvc


namespace HealthSvc

/-- A stored document field that feeds a `datetime`-typed field of
`HealthDataResponse`, as the service and the pydantic coercion see it: a
real `datetime` instance (`dt`), a non-`datetime` value that pydantic can
(`nonDt (some t)`) or cannot (`nonDt none`) coerce to a `datetime`, or a
missing field (`absent`). -/
inductive TsField where
  | dt (t : Datetime)
  | nonDt (coerced : Option Datetime)
  | absent
deriving Repr, DecidableEq

/-- One Firestore document of the query stream as `get_health_data`
consumes it: `doc.id` plus the `to_dict()` fields of the response model.
`user_id`, `steps`, `calories` and `sleepHours` are kept well-typed —
the claims under study only exercise the timestamp-shaped fields. -/
structure Doc where
  id : List Nat
  user_id : List Nat
  timestamp : TsField
  created_at : TsField
  steps : Int
  calories : Int
  sleepHours : Rat
deriving Repr, DecidableEq

/-- `app.models.health.HealthDataResponse`: plain typed fields with
pydantic's standard coercion and no extra validators. -/
structure HealthDataResponse where
  id : List Nat
  user_id : List Nat
  timestamp : Datetime
  steps : Int
  calories : Int
  sleepHours : Rat
  created_at : Datetime
deriving Repr, DecidableEq

/-- `app.models.health.HealthDataSummary`. -/
structure HealthDataSummary where
  total_steps : Int
  average_calories : Rat
  averageSleepHours : Rat
deriving Repr, DecidableEq

/-- The per-document normalization in `get_health_data` (health_service.py
lines 227-235): a timezone-naive `datetime` instance gets
`tzinfo=timezone.utc` attached; any other value is left alone. -/
def normTs : TsField → TsField
  | .dt t => .dt (if t.tz = none then { t with tz := some (0 : Int) } else t)
  | x => x

/-- Pydantic coercion of a stored field into the `datetime` type of the
response model: a `datetime` instance passes through, another value
coerces or fails as recorded in `nonDt`, and a missing required field
fails. -/
def coerceTs : TsField → Option Datetime
  | .dt t => some t
  | .nonDt c => c
  | .absent => none

/-- The body of the `for doc in docs` loop (lines 222-237): attach
`doc.id`, normalize naive datetimes to UTC, then validate through
`HealthDataResponse(**data)`; `none` models the pydantic
`ValidationError` that propagates out of `get_health_data`. -/
def docToResponse (doc : Doc) : Option HealthDataResponse :=
  match coerceTs (normTs doc.timestamp), coerceTs (normTs doc.created_at) with
  | some t, some c =>
    some ⟨doc.id, doc.user_id, t, doc.steps, doc.calories, doc.sleepHours, c⟩
  | _, _ => none

/-- The `entries` accumulation of the `for doc in docs` loop: stops with
`none` as soon as one document fails validation (the raise aborts the
whole call). -/
def entriesOf : List Doc → Option (List HealthDataResponse)
  | [] => some []
  | d :: ds =>
    match docToResponse d, entriesOf ds with
    | some r, some rs => some (r :: rs)
    | _, _ => none

/-- `HealthService.get_health_data` (health_service.py lines 150-250) over
a fixed store snapshot: `matching` is the Firestore result stream of the
user/date/cursor query in `(timestamp, __name__)` order, of which the
`limit(n)` clause yields the length-`n` prefix.  Out-of-range limits are
silently reset to 50; one extra document is fetched to detect `has_more`;
`.error ()` is a pydantic `ValidationError` escaping the entry loop; the
cursor is emitted only when the extra document existed and the raw
`timestamp` of the last retained document is a `datetime` instance. -/
def getHealthData (matching : List Doc) (limit : Int) :
    Except Unit (List HealthDataResponse × Option (List Nat) × Bool) :=
  let lim : Int := if limit < 1 ∨ limit > 100 then 50 else limit
  let fetched := matching.take (lim.toNat + 1)
  let hasMore : Bool := decide (lim.toNat < fetched.length)
  let docs := if hasMore then fetched.take lim.toNat else fetched
  match entriesOf docs with
  | none => .error ()
  | some entries =>
    let nextCursor : Option (List Nat) :=
      if hasMore then
        match docs.getLast? with
        | some last =>
          match last.timestamp with
          | .dt t =>
            some (encodeCursor
              (if t.tz = none then { t with tz := some (0 : Int) } else t)
              last.id)
          | _ => none
        | none => none
      else none
    .ok (entries, nextCursor, hasMore)

/-- The two exceptions `get_health_data_summary` can raise:
`HealthDataNotFoundError` on an empty entry list, or the pydantic
`ValidationError` that `get_health_data` lets escape. -/
inductive SummaryErr where
  | notFound
  | validation
deriving Repr, DecidableEq

/-- `HealthService.get_health_data_summary` (health_service.py lines
252-291): fetch through `get_health_data(..., limit=10000)`, raise
`HealthDataNotFoundError` when no entries come back, otherwise reduce to
total steps and average calories / sleep hours. -/
def getHealthDataSummary (matching : List Doc) :
    Except SummaryErr HealthDataSummary :=
  match getHealthData matching 10000 with
  | .error _ => .error .validation
  | .ok (entries, _, _) =>
    if entries.isEmpty then .error .notFound
    else
      let totalSteps := (entries.map fun e => e.steps).sum
      let totalCalories := (entries.map fun e => e.calories).sum
      let totalSleep := (entries.map fun e => e.sleepHours).sum
      let n := entries.length
      .ok ⟨totalSteps,
        if 0 < n then (totalCalories : Rat) / (n : Rat) else 0,
        if 0 < n then totalSleep / (n : Rat) else 0⟩

/-- A well-formed stored document: an aware UTC timestamp, one step, 300
calories, 7 hours of sleep. -/
def sampleDoc : Doc :=
  { id := PyCodec.asciiOf "doc",
    user_id := PyCodec.asciiOf "user123",
    timestamp := .dt ⟨2026, 1, 8, 8, 30, 0, 0, some 0⟩,
    created_at := .dt ⟨2026, 1, 8, 8, 30, 0, 0, some 0⟩,
    steps := 1, calories := 300, sleepHours := 7 }

/-- A document whose `timestamp` field is missing. -/
def docNoTs : Doc := { sampleDoc with timestamp := .absent }

/-- A document whose stored `timestamp` is not a `datetime` instance but
is pydantic-coercible (e.g. an ISO-8601 string). -/
def docStrTs : Doc :=
  { sampleDoc with timestamp := .nonDt (some ⟨2026, 1, 8, 8, 30, 0, 0, some 0⟩) }

/-- A user's store of 51 well-formed records, one step each. -/
def store51 : List Doc := List.replicate 51 sampleDoc

end HealthSvc


section BucketLemmas

open RateLimiter

/-- Single-step preservation: from a state whose token count is
non-negative and whose refill stamp does not exceed `now`, the script
persists a bucket with `0 ≤ tokens ≤ capacity` and `last_refill = now`. -/
theorem tokenBucketScript_inv (capacity rate now req : ℚ)
    (st : Option Bucket) (hcap : 0 ≤ capacity) (hrate : 0 ≤ rate)
    (hreq : 0 ≤ req)
    (hst : ∀ b ∈ st, 0 ≤ b.tokens ∧ b.last_refill ≤ now) :
    0 ≤ (tokenBucketScript capacity rate now req st).2.tokens ∧
      (tokenBucketScript capacity rate now req st).2.tokens ≤ capacity ∧
      (tokenBucketScript capacity rate now req st).2.last_refill = now := by
  have htok : 0 ≤ (st.map Bucket.tokens).getD capacity ∧
      (st.map Bucket.last_refill).getD now ≤ now := by
    cases st with
    | none => simpa using hcap
    | some b =>
      have := hst b rfl
      simpa using this
  set tokens0 := (st.map Bucket.tokens).getD capacity with htokens0
  set lastRefill := (st.map Bucket.last_refill).getD now with hlast
  have helapsed : 0 ≤ now - lastRefill := by
    have := htok.2
    linarith
  have hadd : 0 ≤ (now - lastRefill) * rate := mul_nonneg helapsed hrate
  have hmin0 : 0 ≤ min capacity (tokens0 + (now - lastRefill) * rate) :=
    le_min hcap (by have := htok.1; linarith)
  have hminc : min capacity (tokens0 + (now - lastRefill) * rate) ≤ capacity :=
    min_le_left _ _
  unfold tokenBucketScript
  by_cases h : min capacity (tokens0 + (now - lastRefill) * rate) < req
  · simp only [htokens0, hlast] at *
    rw [if_pos h]
    exact ⟨hmin0, hminc, rfl⟩
  · simp only [htokens0, hlast] at *
    rw [if_neg h]
    push_neg at h
    dsimp only
    refine ⟨by linarith, by linarith, rfl⟩

/-- Every bucket along a run from a well-formed state satisfies the
invariant, provided the check times are non-decreasing and do not precede
the starting state's refill stamp. -/
theorem bucketRun_inv (capacity rate req : ℚ)
    (hcap : 0 ≤ capacity) (hrate : 0 ≤ rate) (hreq : 0 ≤ req) :
    ∀ (ts : List ℚ) (st : Option Bucket), ts.Chain' (· ≤ ·) →
      (∀ b ∈ st, 0 ≤ b.tokens ∧ ∀ t ∈ ts.head?, b.last_refill ≤ t) →
      ∀ b ∈ bucketRun capacity rate req st ts,
        0 ≤ b.tokens ∧ b.tokens ≤ capacity := by
  intro ts
  induction ts with
  | nil => intro st _ _ b hb; simp [bucketRun] at hb
  | cons t ts ih =>
    intro st hchain hst b hb
    have hstep := tokenBucketScript_inv capacity rate t req st hcap hrate hreq
      (by
        intro b' hb'
        refine ⟨(hst b' hb').1, ?_⟩
        exact (hst b' hb').2 t (by simp))
    simp only [bucketRun, List.mem_cons] at hb
    rcases hb with hb | hb
    · exact hb ▸ ⟨hstep.1, hstep.2.1⟩
    · have hchain' : ts.Chain' (· ≤ ·) := hchain.tail
      refine ih (some ((tokenBucketScript capacity rate t req st).2)) hchain' ?_ b hb
      intro b' hb'
      simp only [Option.mem_def, Option.some.injEq] at hb'
      subst hb'
      refine ⟨hstep.1, ?_⟩
      intro u hu
      rw [hstep.2.2]
      cases ts with
      | nil => simp at hu
      | cons v ts' =>
        simp only [List.head?_cons, Option.mem_def, Option.some.injEq] at hu
        subst hu
        exact (List.chain'_cons.mp hchain).1

end BucketLemmas

/-- C4: for any sequence of admission checks on a fresh bucket, taken at
non-decreasing times with a non-negative refill rate and capacity and one
token requested per check, the stored token count satisfies
`0 ≤ tokens ≤ capacity` after every check. -/
theorem C4_token_bucket_invariant (capacity rate : ℚ) (times : List ℚ)
    (hcap : 0 ≤ capacity) (hrate : 0 ≤ rate)
    (hchain : times.Chain' (· ≤ ·)) :
    ∀ b ∈ RateLimiter.bucketRun capacity rate 1 none times,
      0 ≤ b.tokens ∧ b.tokens ≤ capacity :=
  bucketRun_inv capacity rate 1 hcap hrate (by norm_num) times none hchain
    (by intro b hb; simp at hb)

/-- C4 witness: a concrete single-check run at capacity 30, rate 2, time 0
produces the bucket ⟨29, 0⟩, which the theorem bounds. -/
theorem C4_token_bucket_invariant_witness :
    0 ≤ (RateLimiter.Bucket.mk 29 0).tokens ∧
      (RateLimiter.Bucket.mk 29 0).tokens ≤ 30 :=
  C4_token_bucket_invariant 30 2 [0] (by norm_num) (by norm_num)
    (List.chain'_singleton 0) (RateLimiter.Bucket.mk 29 0)
    (by simp [RateLimiter.bucketRun, RateLimiter.tokenBucketScript]; norm_num)

/-- C2 counterexample: with a connected client whose operations raise, a
store error during cache `get` and during the version bump propagates to
the caller instead of being caught. -/
theorem C2_counterexample :
    Cache.cacheGet (some Cache.failingClient) "health:user123:range:v1:deadbeef" =
      .error .err ∧
    Cache.bumpUserVersion (some Cache.failingClient) "user123" = .error .err := by
  exact ⟨rfl, rfl⟩

/-- C2 (amended): `cache.set` catches store errors and returns normally,
and with no client `get` degrades to a miss and the bump to a no-op; but
with a connected client, a store error raised during `cache.get` or during
the version bump propagates to the caller. -/
theorem C2_store_error_handling (r : Cache.RedisClient) (key userId : String)
    (v : List Nat) (ex : Nat) (e e' : Cache.StoreErr)
    (hg : r.get key = .error e)
    (hi : r.incr ("version:" ++ userId) = .error e') :
    Cache.cacheSet (some r) key v ex = .ok () ∧
    Cache.cacheGet (some r) key = .error e ∧
    Cache.bumpUserVersion (some r) userId = .error e' ∧
    Cache.cacheGet none key = .ok none ∧
    Cache.cacheSet none key v ex = .ok () ∧
    Cache.bumpUserVersion none userId = .ok () := by
  refine ⟨?_, ?_, ?_, rfl, rfl, rfl⟩
  · cases h : r.setex key ex v <;> simp [Cache.cacheSet, h]
  · simp [Cache.cacheGet, hg]
  · simp [Cache.bumpUserVersion, hi, Except.map]

/-- C2 witness: the amended theorem applied to the always-failing client. -/
theorem C2_store_error_handling_witness :
    Cache.cacheSet (some Cache.failingClient) "k" [] 60 = .ok () ∧
    Cache.cacheGet (some Cache.failingClient) "k" = .error .err ∧
    Cache.bumpUserVersion (some Cache.failingClient) "u" = .error .err ∧
    Cache.cacheGet none "k" = .ok none ∧
    Cache.cacheSet none "k" [] 60 = .ok () ∧
    Cache.bumpUserVersion none "u" = .ok () :=
  C2_store_error_handling Cache.failingClient "k" "u" [] 60 .err .err rfl rfl

/-- C7 counterexample: with rate limiting enabled but the script SHA not
loaded, the middleware allows the request (no 429) yet annotates the
response with no headers at all. -/
theorem C7_counterexample :
    (RateLimiter.rateLimitMiddleware false none ⟨none, none, some "203.0.113.9"⟩
        true (.ok true) ⟨200, [], "ok"⟩).1.status ≠ 429 ∧
    (RateLimiter.rateLimitMiddleware false none ⟨none, none, some "203.0.113.9"⟩
        true (.ok true) ⟨200, [], "ok"⟩).1.headers = [] := by
  exact ⟨by decide, rfl⟩

/-- C7 (amended): when the script is loaded, an allowed request's response
gains the three informational headers (configured capacity, rate as
`"<rate>/s"`, burst = capacity, per tier), and a denied request gets a 429
with `Retry-After: 60`; a request allowed because no script is loaded is
forwarded unannotated. -/
theorem C7_headers (req : RateLimiter.RequestCtx) (inner : RateLimiter.Response)
    (sha : String) (redisAvailable : Bool) (evalResult : Except Unit Bool) :
    (RateLimiter.checkRateLimit redisAvailable (some sha) evalResult = true →
      (RateLimiter.rateLimitMiddleware false (some sha) req redisAvailable
          evalResult inner).1 =
        { inner with headers := inner.headers ++
            [("X-RateLimit-Limit", if req.state_user_id.isSome then "30" else "10"),
             ("X-RateLimit-Rate", if req.state_user_id.isSome then "2.0/s" else "0.5/s"),
             ("X-RateLimit-Burst", if req.state_user_id.isSome then "30" else "10")] }) ∧
    (RateLimiter.checkRateLimit redisAvailable (some sha) evalResult = false →
      (RateLimiter.rateLimitMiddleware false (some sha) req redisAvailable
          evalResult inner).1 =
        ⟨429, [("Retry-After", "60")], "Rate limit exceeded"⟩) ∧
    (RateLimiter.rateLimitMiddleware false none req redisAvailable
        evalResult inner).1 = inner := by
  have hac : toString RateLimiter.AUTH_CAPACITY = "30" := rfl
  have hnc : toString RateLimiter.ANON_CAPACITY = "10" := rfl
  have har : RateLimiter.fmtRate1 RateLimiter.AUTH_RATE = "2.0" := by
    unfold RateLimiter.fmtRate1 RateLimiter.AUTH_RATE; norm_num; rfl
  have hnr : RateLimiter.fmtRate1 RateLimiter.ANON_RATE = "0.5" := by
    unfold RateLimiter.fmtRate1 RateLimiter.ANON_RATE; norm_num; rfl
  refine ⟨?_, ?_, ?_⟩
  · intro h
    cases hu : req.state_user_id with
    | none => simp [RateLimiter.rateLimitMiddleware, hu, h, hnc, hnr]
    | some uid => simp [RateLimiter.rateLimitMiddleware, hu, h, hac, har]
  · intro h
    cases hu : req.state_user_id with
    | none => simp [RateLimiter.rateLimitMiddleware, hu, h]
    | some uid => simp [RateLimiter.rateLimitMiddleware, hu, h]
  · cases hu : req.state_user_id with
    | none => simp [RateLimiter.rateLimitMiddleware, hu]
    | some uid => simp [RateLimiter.rateLimitMiddleware, hu]

/-- C7 witness: an authenticated allowed request gets capacity 30, rate
"2.0/s" and burst 30 appended. -/
theorem C7_headers_witness :
    (RateLimiter.rateLimitMiddleware false (some "sha") ⟨some "u1", none, none⟩
        true (.ok true) ⟨200, [], "ok"⟩).1 =
      ⟨200, [("X-RateLimit-Limit", "30"), ("X-RateLimit-Rate", "2.0/s"),
             ("X-RateLimit-Burst", "30")], "ok"⟩ := by
  have h := (C7_headers ⟨some "u1", none, none⟩ ⟨200, [], "ok"⟩ "sha" true
    (.ok true)).1 rfl
  simpa using h

/-- C10: when the `DISABLE_RATE_LIMIT` environment variable lowercases to
"true", the middleware forwards every request unchanged: the inner response
is returned as is (no rejection, no added headers) and the rate-limit check
— the only path to the shared store — is never invoked. -/
theorem C10_disable_rate_limit (v : String)
    (hv : RateLimiter.pyLower v = "true")
    (scriptSha : Option String) (req : RateLimiter.RequestCtx)
    (redisAvailable : Bool) (evalResult : Except Unit Bool)
    (inner : RateLimiter.Response) :
    RateLimiter.rateLimitMiddleware (RateLimiter.disableFromEnv (some v))
      scriptSha req redisAvailable evalResult inner = (inner, false) := by
  have hd : RateLimiter.disableFromEnv (some v) = true := by
    simp [RateLimiter.disableFromEnv, hv]
  rw [hd]
  simp [RateLimiter.rateLimitMiddleware]

/-- C10 witness: with `DISABLE_RATE_LIMIT=TRUE`, a request that the bucket
would deny is still forwarded unchanged with no store access. -/
theorem C10_disable_rate_limit_witness :
    RateLimiter.rateLimitMiddleware (RateLimiter.disableFromEnv (some "TRUE"))
      (some "sha") ⟨none, none, none⟩ true (.ok false) ⟨200, [], "ok"⟩ =
      (⟨200, [], "ok"⟩, false) :=
  C10_disable_rate_limit "TRUE" (by decide) (some "sha") ⟨none, none, none⟩
    true (.ok false) ⟨200, [], "ok"⟩


namespace Py

end Py

section DateLemmas

open HealthSvc

theorem daysInMonth_le (y m : ℕ) : daysInMonth y m ≤ 31 := by
  unfold daysInMonth
  split_ifs <;> omega

end DateLemmas

section CodecLemmas

open PyCodec

theorem utf8EncodeChar_ascii (c : Nat) (h : c < 0x80) :
    utf8EncodeChar c = [c] := by
  unfold utf8EncodeChar
  rw [if_pos h]

theorem utf8_flatten_ascii (s : List Nat) (h : ∀ c ∈ s, c < 0x80) :
    (s.map utf8EncodeChar).flatten = s := by
  induction s with
  | nil => rfl
  | cons c cs ih =>
    have hc := h c (by simp)
    simp only [List.map_cons, List.flatten_cons, utf8EncodeChar_ascii c hc,
      List.cons_append, List.nil_append]
    rw [ih (fun x hx => h x (by simp [hx]))]

theorem pyStrEncode_ascii (s : List Nat) (h : ∀ c ∈ s, c < 0x80) :
    pyStrEncode s = .ok s := by
  have hv : validUnicode s := by
    intro c hc
    have := h c hc
    omega
  unfold pyStrEncode
  rw [if_pos hv, utf8_flatten_ascii s h]

theorem utf8DecodeOne_ascii (b : Nat) (hb : b < 0x80) (rest : List Nat) :
    utf8DecodeOne (b :: rest) = some (b, rest) := by
  rw [utf8DecodeOne.eq_def]
  dsimp only
  rw [if_pos hb]

theorem utf8Decode_ascii (bs : List Nat) (h : ∀ b ∈ bs, b < 0x80) :
    utf8Decode bs = .ok bs := by
  induction bs with
  | nil => rfl
  | cons b rest ih =>
    have hb := h b (by simp)
    show utf8DecodeLoop (rest.length + 1) (b :: rest) = _
    rw [utf8DecodeLoop, utf8DecodeOne_ascii b hb]
    show Except.map _ (utf8Decode rest) = _
    rw [ih (fun x hx => h x (by simp [hx]))]
    rfl

theorem b64Char_lt (n : Nat) : b64Char n < 0x80 := by
  unfold b64Char
  split_ifs <;> omega

theorem b64Value_b64Char : ∀ v < 64, b64Value (b64Char v) = some v := by decide

theorem b64Tokens_cons_char (v : Nat) (hv : v < 64) (bs : List Nat) :
    b64Tokens (b64Char v :: bs) = .data v :: b64Tokens bs := by
  simp only [b64Tokens, List.filterMap_cons, b64Value_b64Char v hv]

theorem b64Tokens_cons_pad (bs : List Nat) :
    b64Tokens (61 :: bs) = .pad :: b64Tokens bs := by
  simp only [b64Tokens, List.filterMap_cons]
  rfl

theorem b64EncodeChunks_ascii : ∀ (bs : List Nat),
    ∀ x ∈ b64EncodeChunks bs, x < 0x80
  | [] => by simp [b64EncodeChunks]
  | [a] => by
    simp only [b64EncodeChunks, List.mem_cons]
    rintro x (rfl | rfl | rfl | rfl | h) <;>
      first | exact b64Char_lt _ | omega | simp_all
  | [a, b] => by
    simp only [b64EncodeChunks, List.mem_cons]
    rintro x (rfl | rfl | rfl | rfl | h) <;>
      first | exact b64Char_lt _ | omega | simp_all
  | a :: b :: c :: rest => by
    intro x hx
    simp only [b64EncodeChunks, List.mem_cons] at hx
    rcases hx with rfl | rfl | rfl | rfl | hx
    · exact b64Char_lt _
    · exact b64Char_lt _
    · exact b64Char_lt _
    · exact b64Char_lt _
    · exact b64EncodeChunks_ascii rest x hx

theorem b64_roundtrip : ∀ (bs : List Nat), (∀ b ∈ bs, b < 256) →
    b64Decode (b64EncodeChunks bs) = .ok bs
  | [], _ => rfl
  | [a], h => by
    have ha : a < 256 := h a (by simp)
    unfold b64EncodeChunks b64Decode
    rw [b64Tokens_cons_char (a / 4) (by omega),
      b64Tokens_cons_char (a % 4 * 16) (by omega),
      b64Tokens_cons_pad, b64Tokens_cons_pad]
    show b64DecodeTokens (.data (a / 4) :: .data (a % 4 * 16) :: .pad :: [.pad]) = _
    rw [b64DecodeTokens]
    simp only [Except.ok.injEq, List.cons.injEq, and_true]
    omega
  | [a, b], h => by
    have ha : a < 256 := h a (by simp)
    have hb : b < 256 := h b (by simp)
    unfold b64EncodeChunks b64Decode
    rw [b64Tokens_cons_char (a / 4) (by omega),
      b64Tokens_cons_char (a % 4 * 16 + b / 16) (by omega),
      b64Tokens_cons_char (b % 16 * 4) (by omega),
      b64Tokens_cons_pad]
    show b64DecodeTokens (.data (a / 4) :: .data (a % 4 * 16 + b / 16) ::
      .data (b % 16 * 4) :: .pad :: []) = _
    rw [b64DecodeTokens]
    simp only [Except.ok.injEq, List.cons.injEq, and_true]
    omega
  | [a, b, c], h => by
    have ha : a < 256 := h a (by simp)
    have hb : b < 256 := h b (by simp)
    have hc : c < 256 := h c (by simp)
    unfold b64EncodeChunks b64Decode
    rw [b64Tokens_cons_char (a / 4) (by omega),
      b64Tokens_cons_char (a % 4 * 16 + b / 16) (by omega),
      b64Tokens_cons_char (b % 16 * 4 + c / 64) (by omega),
      b64Tokens_cons_char (c % 64) (by omega)]
    show b64DecodeTokens (.data (a / 4) :: .data (a % 4 * 16 + b / 16) ::
      .data (b % 16 * 4 + c / 64) :: .data (c % 64) :: b64Tokens []) = _
    rw [b64DecodeTokens]
    show Except.map _ (b64DecodeTokens []) = _
    rw [show b64DecodeTokens [] = .ok [] from rfl]
    simp only [Except.map, Except.ok.injEq, List.cons.injEq, and_true]
    omega
  | a :: b :: c :: r1 :: rest, h => by
    have ha : a < 256 := h a (by simp)
    have hb : b < 256 := h b (by simp)
    have hc : c < 256 := h c (by simp)
    have ih := b64_roundtrip (r1 :: rest)
      (fun x hx => h x (by simp [List.mem_cons] at hx ⊢; tauto))
    unfold b64EncodeChunks b64Decode
    rw [b64Tokens_cons_char (a / 4) (by omega),
      b64Tokens_cons_char (a % 4 * 16 + b / 16) (by omega),
      b64Tokens_cons_char (b % 16 * 4 + c / 64) (by omega),
      b64Tokens_cons_char (c % 64) (by omega)]
    rw [b64DecodeTokens]
    unfold b64Decode at ih
    rw [ih]
    simp only [Except.map, Except.ok.injEq, List.cons.injEq, and_true]
    omega

end CodecLemmas

section JsonStringLemmas

open PyCodec

theorem hexVal_hexDigitL : ∀ k < 16, hexVal (hexDigitL k) = some k := by decide

theorem hex4_u4core (n : Nat) (hn : n < 0x10000) :
    hex4 (hexDigitL (n / 4096 % 16)) (hexDigitL (n / 256 % 16))
      (hexDigitL (n / 16 % 16)) (hexDigitL (n % 16)) = some n := by
  simp only [hex4, hexVal_hexDigitL (n / 4096 % 16) (by omega),
    hexVal_hexDigitL (n / 256 % 16) (by omega),
    hexVal_hexDigitL (n / 16 % 16) (by omega),
    hexVal_hexDigitL (n % 16) (by omega),
    Option.pure_def, Option.bind_eq_bind, Option.some_bind,
    Option.some.injEq]
  omega

theorem scanJItem_cons_plain (c : Nat) (h92 : c ≠ 92) (h20 : ¬(c < 0x20))
    (rest : List Nat) : scanJItem (c :: rest) = some (c, rest) := by
  rw [scanJItem.eq_def]
  dsimp only
  rw [if_neg h92, if_neg h20]

theorem scanUEscape_quad (a b c2 d : Nat) (n : Nat) (hx : hex4 a b c2 d = some n)
    (hn : ¬(0xD800 ≤ n ∧ n ≤ 0xDBFF)) (rest3 : List Nat) :
    scanUEscape (a :: b :: c2 :: d :: rest3) = some (n, rest3) := by
  rw [scanUEscape.eq_def]
  dsimp only
  rw [hx]
  dsimp only
  rw [if_neg hn]

theorem scanJItem_pair (hi lo : Nat) (hhi : 0xD800 ≤ hi ∧ hi ≤ 0xDBFF)
    (hlo : 0xDC00 ≤ lo ∧ lo ≤ 0xDFFF) (t : List Nat) :
    scanJItem (u4 hi ++ (u4 lo ++ t)) =
      some (0x10000 + (hi - 0xD800) * 0x400 + (lo - 0xDC00), t) := by
  have hhi16 : hi < 0x10000 := by omega
  have hlo16 : lo < 0x10000 := by omega
  simp only [u4, List.cons_append, List.nil_append]
  rw [scanJItem.eq_def]
  dsimp only
  rw [if_pos rfl, if_pos rfl]
  rw [scanUEscape.eq_def]
  dsimp only
  rw [hex4_u4core hi hhi16]
  dsimp only
  rw [if_pos hhi]
  rw [hex4_u4core lo hlo16]
  dsimp only
  rw [if_pos hlo]

set_option maxHeartbeats 1000000 in
set_option maxRecDepth 10000 in
theorem scanJItem_escape (c : Nat) (hlt : c < 0x110000)
    (hsur : ¬(0xD800 ≤ c ∧ c ≤ 0xDFFF)) (t : List Nat) :
    scanJItem (escapeChar c ++ t) = some (c, t) := by
  unfold escapeChar
  split_ifs with h1 h2 h3 h4 h5 h6 h7 h8 h9 h10
  · subst h1; rfl
  · subst h2; rfl
  · subst h3; rfl
  · subst h4; rfl
  · subst h5; rfl
  · subst h6; rfl
  · subst h7; rfl
  · simp only [u4, List.cons_append, List.nil_append]
    rw [scanJItem.eq_def]
    dsimp only
    rw [if_pos rfl, if_pos rfl]
    exact scanUEscape_quad _ _ _ _ c (hex4_u4core c (by omega)) (by omega) t
  · simp only [List.cons_append, List.nil_append]
    exact scanJItem_cons_plain c h2 (by omega) t
  · simp only [u4, List.cons_append, List.nil_append]
    rw [scanJItem.eq_def]
    dsimp only
    rw [if_pos rfl, if_pos rfl]
    exact scanUEscape_quad _ _ _ _ c (hex4_u4core c (by omega)) (by omega) t
  · rw [List.append_assoc]
    rw [scanJItem_pair (0xD800 + (c - 0x10000) / 0x400)
      (0xDC00 + (c - 0x10000) % 0x400)
      (by have : (c - 0x10000) / 0x400 < 0x400 := by omega
          constructor <;> omega)
      (by have : (c - 0x10000) % 0x400 < 0x400 := by omega
          constructor <;> omega) t]
    simp only [Option.some.injEq, Prod.mk.injEq]
    exact ⟨by omega, trivial⟩

set_option maxHeartbeats 1000000 in
theorem escapeChar_ne_nil (c : Nat) : escapeChar c ≠ [] := by
  unfold escapeChar
  split_ifs <;> simp [u4]

set_option maxHeartbeats 1000000 in
theorem escapeChar_head_ne_quote (c : Nat) : (escapeChar c).headD 0 ≠ 0x22 := by
  unfold escapeChar
  split_ifs <;> simp [u4] <;> omega

theorem scanJStringLoop_escape (s : List Nat) (hs : validUnicode s) :
    ∀ (fuel : Nat) (rest : List Nat), s.length + 1 ≤ fuel →
      scanJStringLoop fuel (escapeString s ++ 0x22 :: rest) = some (s, rest) := by
  induction s with
  | nil =>
    intro fuel rest hfuel
    obtain ⟨f, rfl⟩ : ∃ f, fuel = f + 1 := ⟨fuel - 1, by omega⟩
    simp only [escapeString, List.map_nil, List.flatten_nil, List.nil_append]
    rw [scanJStringLoop]
    rw [if_pos rfl]
  | cons c cs ih =>
    intro fuel rest hfuel
    obtain ⟨f, rfl⟩ : ∃ f, fuel = f + 1 := ⟨fuel - 1, by omega⟩
    have hc := hs c (by simp)
    have hcs : validUnicode cs := fun x hx => hs x (by simp [hx])
    have hitem := scanJItem_escape c hc.1 hc.2 (escapeString cs ++ 0x22 :: rest)
    obtain ⟨x, xs, hec⟩ : ∃ x xs, escapeChar c = x :: xs := by
      cases hec : escapeChar c with
      | nil => exact absurd hec (escapeChar_ne_nil c)
      | cons x xs => exact ⟨x, xs, rfl⟩
    have hx34 : x ≠ 0x22 := by
      have h := escapeChar_head_ne_quote c
      rw [hec] at h
      simpa using h
    have hlist : escapeString (c :: cs) ++ 0x22 :: rest =
        x :: (xs ++ (escapeString cs ++ 0x22 :: rest)) := by
      show (List.map escapeChar (c :: cs)).flatten ++ 0x22 :: rest = _
      simp only [List.map_cons, List.flatten_cons, hec, List.cons_append,
        List.append_assoc]
      rfl
    rw [hlist]
    rw [scanJStringLoop]
    rw [if_neg hx34]
    have hitem' : scanJItem (x :: (xs ++ (escapeString cs ++ 0x22 :: rest))) =
        some (c, escapeString cs ++ 0x22 :: rest) := by
      rw [← List.cons_append, ← hec]
      exact hitem
    rw [hitem']
    dsimp only
    rw [ih hcs f rest (by simp at hfuel ⊢; omega)]
    rfl

theorem escapeString_length_ge (s : List Nat) : s.length ≤ (escapeString s).length := by
  induction s with
  | nil => simp [escapeString]
  | cons c cs ih =>
    have hne := escapeChar_ne_nil c
    have h1 : 1 ≤ (escapeChar c).length := by
      cases hec : escapeChar c with
      | nil => exact absurd hec hne
      | cons x xs => simp
    show (c :: cs).length ≤ ((List.map escapeChar (c :: cs)).flatten).length
    simp only [List.map_cons, List.flatten_cons, List.length_append,
      List.length_cons]
    have ih' : cs.length ≤ ((List.map escapeChar cs).flatten).length := ih
    omega

theorem scanJString_escape (s : List Nat) (hs : validUnicode s)
    (rest : List Nat) :
    scanJString (escapeString s ++ 0x22 :: rest) = some (s, rest) := by
  unfold scanJString
  apply scanJStringLoop_escape s hs
  have := escapeString_length_ge s
  simp only [List.length_append, List.length_cons]
  omega

end JsonStringLemmas

section JsonObjectLemmas

open PyCodec

theorem skipWs_cons (b : Nat) (l : List Nat) (h1 : b ≠ 32) (h2 : b ≠ 9)
    (h3 : b ≠ 10) (h4 : b ≠ 13) : skipWs (b :: l) = b :: l := by
  simp [skipWs, List.dropWhile_cons, h1, h2, h3, h4]

theorem skipWs_space (l : List Nat) : skipWs (32 :: l) = skipWs l := by
  simp [skipWs, List.dropWhile_cons]

theorem parseJValue_str (fuel : Nat) (hfuel : 1 ≤ fuel) (s rest : List Nat)
    (hs : validUnicode s) :
    parseJValue fuel (34 :: (escapeString s ++ 34 :: rest)) =
      some (.str s, rest) := by
  obtain ⟨f, rfl⟩ : ∃ f, fuel = f + 1 := ⟨fuel - 1, by omega⟩
  rw [parseJValue]
  rw [skipWs_cons 34 _ (by omega) (by omega) (by omega) (by omega)]
  dsimp only
  rw [if_pos rfl]
  rw [scanJString_escape s hs rest]
  rfl

theorem parseJValue_sp_str (fuel : Nat) (hfuel : 1 ≤ fuel) (s rest : List Nat)
    (hs : validUnicode s) :
    parseJValue fuel (32 :: 34 :: (escapeString s ++ 34 :: rest)) =
      some (.str s, rest) := by
  obtain ⟨f, rfl⟩ : ∃ f, fuel = f + 1 := ⟨fuel - 1, by omega⟩
  rw [parseJValue]
  rw [skipWs_space, skipWs_cons 34 _ (by omega) (by omega) (by omega) (by omega)]
  dsimp only
  rw [if_pos rfl]
  rw [scanJString_escape s hs rest]
  rfl

theorem parseJMembers_last (fuel : Nat) (hfuel : 2 ≤ fuel) (k v : List Nat)
    (hk : validUnicode k) (hv : validUnicode v) :
    parseJMembers fuel
      (34 :: (escapeString k ++ (34 :: 58 :: 32 :: 34 ::
        (escapeString v ++ [34, 125])))) = some ([(k, .str v)], []) := by
  obtain ⟨f, rfl⟩ : ∃ f, fuel = f + 1 := ⟨fuel - 1, by omega⟩
  rw [parseJMembers]
  rw [scanJString_escape k hk]
  dsimp only
  rw [skipWs_cons 58 _ (by omega) (by omega) (by omega) (by omega)]
  dsimp only
  rw [parseJValue_sp_str f (by omega) v [125] hv]
  dsimp only
  rw [skipWs_cons 125 _ (by omega) (by omega) (by omega) (by omega)]

theorem parseJMembers_cursor (fuel : Nat) (hfuel : 3 ≤ fuel) (ts i : List Nat)
    (hts : validUnicode ts) (hi : validUnicode i) :
    parseJMembers fuel
      (34 :: (escapeString (asciiOf "timestamp") ++
        (34 :: 58 :: 32 :: 34 :: (escapeString ts ++
          (34 :: 44 :: 32 :: 34 :: (escapeString (asciiOf "id") ++
            (34 :: 58 :: 32 :: 34 :: (escapeString i ++ [34, 125])))))))) =
      some ([(asciiOf "timestamp", .str ts), (asciiOf "id", .str i)], []) := by
  obtain ⟨f, rfl⟩ : ∃ f, fuel = f + 1 := ⟨fuel - 1, by omega⟩
  have hkts : validUnicode (asciiOf "timestamp") := by decide
  rw [parseJMembers]
  rw [scanJString_escape (asciiOf "timestamp") hkts]
  dsimp only
  rw [skipWs_cons 58 _ (by omega) (by omega) (by omega) (by omega)]
  dsimp only
  rw [parseJValue_sp_str f (by omega) ts _ hts]
  dsimp only
  rw [skipWs_cons 44 _ (by omega) (by omega) (by omega) (by omega)]
  dsimp only
  rw [skipWs_space, skipWs_cons 34 _ (by omega) (by omega) (by omega) (by omega)]
  rw [parseJMembers_last f (by omega) (asciiOf "id") i (by decide) hi]
  rfl

theorem parseJValue_dumpsCursorObj (fuel : Nat) (hfuel : 4 ≤ fuel)
    (ts i : List Nat) (hts : validUnicode ts) (hi : validUnicode i) :
    parseJValue fuel (dumpsCursorObj ts i) =
      some (.obj [(asciiOf "timestamp", .str ts), (asciiOf "id", .str i)], []) := by
  obtain ⟨f, rfl⟩ : ∃ f, fuel = f + 1 := ⟨fuel - 1, by omega⟩
  have h1 : (asciiOf "\x7b\"timestamp\": \"" : List Nat) =
      [123, 34] ++ escapeString (asciiOf "timestamp") ++ [34, 58, 32, 34] := by
    decide
  have h2 : (asciiOf "\", \"id\": \"" : List Nat) =
      [34, 44, 32, 34] ++ escapeString (asciiOf "id") ++ [34, 58, 32, 34] := by
    decide
  have h3 : (asciiOf "\"\x7d" : List Nat) = [34, 125] := by decide
  have hshape : dumpsCursorObj ts i =
      123 :: 34 :: (escapeString (asciiOf "timestamp") ++
        (34 :: 58 :: 32 :: 34 :: (escapeString ts ++
          (34 :: 44 :: 32 :: 34 :: (escapeString (asciiOf "id") ++
            (34 :: 58 :: 32 :: 34 :: (escapeString i ++ [34, 125]))))))) := by
    unfold dumpsCursorObj
    rw [h1, h2, h3]
    simp [List.append_assoc]
  rw [hshape]
  rw [parseJValue]
  rw [skipWs_cons 123 _ (by omega) (by omega) (by omega) (by omega)]
  dsimp only
  rw [if_neg (by omega), if_pos rfl]
  rw [skipWs_cons 34 _ (by omega) (by omega) (by omega) (by omega)]
  dsimp only
  rw [parseJMembers_cursor f (by omega) ts i hts hi]
  rfl

theorem jsonLoads_dumpsCursorObj (ts i : List Nat) (hts : validUnicode ts)
    (hi : validUnicode i) :
    jsonLoads (dumpsCursorObj ts i) =
      some (.obj [(asciiOf "timestamp", .str ts), (asciiOf "id", .str i)]) := by
  unfold jsonLoads
  have h15 : (asciiOf "\x7b\"timestamp\": \"").length = 15 := by decide
  have hl : 1 ≤ (dumpsCursorObj ts i).length := by
    unfold dumpsCursorObj
    simp only [List.length_append]
    omega
  rw [parseJValue_dumpsCursorObj (2 * (dumpsCursorObj ts i).length + 2)
    (by omega) ts i hts hi]
  rfl

end JsonObjectLemmas

section IsoLemmas

open PyCodec

theorem digit?_val (k : Nat) (hk : k < 10) : digit? (48 + k) = some k := by
  unfold digit?
  rw [if_pos (by omega)]
  congr 1
  omega

theorem nparse2_npad2 (n : Nat) (hn : n < 100) (r : List Nat) :
    nparse2 (npad2 n ++ r) = some (n, r) := by
  simp only [npad2, List.cons_append, List.nil_append, nparse2,
    digit?_val (n / 10 % 10) (by omega), digit?_val (n % 10) (by omega),
    Option.pure_def, Option.bind_eq_bind, Option.some_bind,
    Option.some.injEq, Prod.mk.injEq, and_true]
  omega

theorem nparse4_npad4 (n : Nat) (hn : n < 10000) (r : List Nat) :
    nparse4 (npad4 n ++ r) = some (n, r) := by
  simp only [npad4, List.cons_append, List.nil_append, nparse4,
    digit?_val (n / 1000 % 10) (by omega), digit?_val (n / 100 % 10) (by omega),
    digit?_val (n / 10 % 10) (by omega), digit?_val (n % 10) (by omega),
    Option.pure_def, Option.bind_eq_bind, Option.some_bind,
    Option.some.injEq, Prod.mk.injEq, and_true]
  omega

theorem expectByte_cons (b : Nat) (r : List Nat) :
    expectByte b (b :: r) = some r := by
  simp [expectByte]

theorem takeWhile_all_append (p : Nat → Bool) (l r : List Nat)
    (hl : ∀ b ∈ l, p b = true) (hr : ∀ x, r.head? = some x → p x = false) :
    (l ++ r).takeWhile p = l ∧ (l ++ r).dropWhile p = r := by
  induction l with
  | nil =>
    simp only [List.nil_append]
    cases r with
    | nil => simp
    | cons x rs =>
      have hx := hr x rfl
      simp [List.takeWhile_cons, List.dropWhile_cons, hx]
  | cons b bs ih =>
    have hb := hl b (by simp)
    have ih' := ih (fun x hx => hl x (by simp [hx]))
    simp [List.takeWhile_cons, List.dropWhile_cons, hb, ih'.1, ih'.2]

theorem npad6_digits (n : Nat) : ∀ b ∈ npad6 n, isDigitByte b = true := by
  intro b hb
  simp only [npad6, List.mem_cons, List.not_mem_nil, or_false] at hb
  rcases hb with rfl | rfl | rfl | rfl | rfl | rfl <;>
    simp [isDigitByte] <;> omega

theorem digitsVal_npad6 (n : Nat) (hn : n < 1000000) :
    digitsVal (npad6 n) = n := by
  simp only [digitsVal, npad6, List.foldl]
  omega

theorem parseTimeOfDay_iso (hh mi ss us : Nat) (h2h : hh < 100)
    (h2m : mi < 100) (h2s : ss < 100) (hus : us < 1000000) (R : List Nat) :
    parseTimeOfDay (npad2 hh ++ 58 :: (npad2 mi ++ 58 :: (npad2 ss ++
      ((if us ≠ 0 then 46 :: npad6 us else []) ++ 43 :: R)))) =
      some (hh, mi, ss, us, 43 :: R) := by
  unfold parseTimeOfDay
  rw [nparse2_npad2 hh h2h]
  simp only [Option.pure_def, Option.bind_eq_bind, Option.some_bind]
  rw [nparse2_npad2 mi h2m]
  simp only [Option.some_bind]
  rw [nparse2_npad2 ss h2s]
  simp only [Option.some_bind]
  by_cases h0 : us = 0
  · subst h0
    simp only [ne_eq, not_true_eq_false, if_false, List.nil_append]
  · rw [if_pos h0]
    simp only [List.cons_append]
    have htw := takeWhile_all_append isDigitByte (npad6 us) (43 :: R)
      (npad6_digits us) (by intro x hx; simp at hx; subst hx; rfl)
    unfold parseTimeOfDay.parseFrac
    rw [htw.1, htw.2]
    have hne : npad6 us ≠ [] := by simp [npad6]
    have hlen : (npad6 us).length = 6 := by simp [npad6]
    rw [if_neg (by simp [hne, hlen])]
    rw [hlen]
    rw [digitsVal_npad6 us hus]
    norm_num

theorem parseTzOffset_utc :
    parseTzOffset (43 :: (npad2 0 ++ 58 :: npad2 0)) = some (some 0, []) := by
  decide

set_option maxHeartbeats 1000000 in
theorem fromIso_isoformat (t : Datetime) (hy : 1 ≤ t.year ∧ t.year ≤ 9999)
    (hmo : 1 ≤ t.month ∧ t.month ≤ 12)
    (hd : 1 ≤ t.day ∧ t.day ≤ HealthSvc.daysInMonth t.year t.month)
    (hh : t.hour < 24) (hmi : t.minute < 60) (hs : t.second < 60)
    (hus : t.microsecond < 1000000) (htz : t.tz = some 0) :
    fromIso (isoformat t) = some t := by
  obtain ⟨y, mo, d, hr, mi, ss, us, tz⟩ := t
  simp only at hy hmo hd hh hmi hs hus htz
  subst htz
  have hshape : isoformat ⟨y, mo, d, hr, mi, ss, us, some 0⟩ =
      npad4 y ++ 45 :: (npad2 mo ++ 45 :: (npad2 d ++ 84 ::
        (npad2 hr ++ 58 :: (npad2 mi ++ 58 :: (npad2 ss ++
          ((if us ≠ 0 then 46 :: npad6 us else []) ++
            43 :: (npad2 0 ++ 58 :: npad2 0))))))) := by
    show npad4 y ++ (45 :: npad2 mo) ++ (45 :: npad2 d) ++ (84 :: npad2 hr) ++
        (58 :: npad2 mi) ++ (58 :: npad2 ss) ++ _ ++ _ = _
    simp only [List.append_assoc, List.cons_append]
    norm_num
  rw [hshape]
  rw [fromIso]
  rw [nparse4_npad4 y (by omega)]
  simp only [Option.pure_def, Option.bind_eq_bind, Option.some_bind]
  rw [expectByte_cons]
  simp only [Option.some_bind]
  rw [nparse2_npad2 mo (by omega)]
  simp only [Option.some_bind]
  rw [expectByte_cons]
  simp only [Option.some_bind]
  rw [nparse2_npad2 d (by have := daysInMonth_le y mo; omega)]
  simp only [Option.some_bind]
  have hdok : 1 ≤ y ∧ y ≤ 9999 ∧ 1 ≤ mo ∧ mo ≤ 12 ∧ 1 ≤ d ∧
      d ≤ HealthSvc.daysInMonth y mo :=
    ⟨by omega, by omega, by omega, by omega, by omega, hd.2⟩
  rw [if_pos hdok]
  rw [parseTimeOfDay_iso hr mi ss us (by omega) (by omega) (by omega) hus]
  simp only [Option.some_bind]
  rw [parseTzOffset_utc]
  simp only [Option.some_bind]
  rw [if_pos (⟨trivial, by omega, by omega, by omega, by omega⟩ :
    True ∧ hr < 24 ∧ mi < 60 ∧ ss < 60 ∧ us < 1000000)]

end IsoLemmas

section CursorRoundtrip

open PyCodec

theorem hexDigitL_lt (k : Nat) (hk : k < 16) : hexDigitL k < 0x80 := by
  unfold hexDigitL
  split_ifs <;> omega

theorem u4_ascii (n : Nat) : ∀ x ∈ u4 n, x < 0x80 := by
  intro x hx
  simp only [u4, List.mem_cons, List.not_mem_nil, or_false] at hx
  rcases hx with rfl | rfl | rfl | rfl | rfl | rfl
  · omega
  · omega
  all_goals exact hexDigitL_lt _ (by omega)

set_option maxHeartbeats 1000000 in
theorem escapeChar_ascii (c : Nat) : ∀ x ∈ escapeChar c, x < 0x80 := by
  intro x hx
  unfold escapeChar at hx
  split_ifs at hx with h1 h2 h3 h4 h5 h6 h7 h8 h9 h10
  · simp only [List.mem_cons, List.not_mem_nil, or_false] at hx; omega
  · simp only [List.mem_cons, List.not_mem_nil, or_false] at hx; omega
  · simp only [List.mem_cons, List.not_mem_nil, or_false] at hx; omega
  · simp only [List.mem_cons, List.not_mem_nil, or_false] at hx; omega
  · simp only [List.mem_cons, List.not_mem_nil, or_false] at hx; omega
  · simp only [List.mem_cons, List.not_mem_nil, or_false] at hx; omega
  · simp only [List.mem_cons, List.not_mem_nil, or_false] at hx; omega
  · exact u4_ascii c x hx
  · simp only [List.mem_cons, List.not_mem_nil, or_false] at hx; omega
  · exact u4_ascii c x hx
  · rcases List.mem_append.mp hx with h | h <;> exact u4_ascii _ x h

theorem escapeString_ascii (s : List Nat) : ∀ x ∈ escapeString s, x < 0x80 := by
  intro x hx
  unfold escapeString at hx
  rw [List.mem_flatten] at hx
  obtain ⟨l, hl, hxl⟩ := hx
  rw [List.mem_map] at hl
  obtain ⟨c, _, rfl⟩ := hl
  exact escapeChar_ascii c x hxl

theorem dumpsCursorObj_ascii (ts i : List Nat) :
    ∀ x ∈ dumpsCursorObj ts i, x < 0x80 := by
  intro x hx
  unfold dumpsCursorObj at hx
  simp only [List.mem_append] at hx
  have hA : ∀ x ∈ asciiOf "\x7b\"timestamp\": \"", x < 0x80 := by decide
  have hB : ∀ x ∈ asciiOf "\", \"id\": \"", x < 0x80 := by decide
  have hC : ∀ x ∈ asciiOf "\"\x7d", x < 0x80 := by decide
  rcases hx with ((((hx | hx) | hx) | hx) | hx)
  · exact hA x hx
  · exact escapeString_ascii ts x hx
  · exact hB x hx
  · exact escapeString_ascii i x hx
  · exact hC x hx

theorem isoformat_ascii (t : Datetime) : ∀ x ∈ isoformat t, x < 0x80 := by
  obtain ⟨y, mo, d, hr, mi, ss, us, tz⟩ := t
  intro x hx
  unfold isoformat at hx
  dsimp only at hx
  rcases tz with _ | o
  · by_cases h0 : us = 0 <;>
      simp [h0, npad2, npad4, npad6, List.mem_append, List.mem_cons] at hx <;>
      omega
  · by_cases h0 : us = 0 <;> by_cases hso : o < 0 <;>
      simp [h0, hso, npad2, npad4, npad6, List.mem_append, List.mem_cons] at hx <;>
      omega

end CursorRoundtrip

/-- C6: cursor round trip — for every valid timestamp (tz = UTC, i.e.
normalized to UTC) and every well-formed-Unicode record id,
`decode_cursor (encode_cursor t id)` returns exactly `(t, id)`. -/
theorem C6_cursor_roundtrip (t : Datetime) (docId : List Nat)
    (hy : 1 ≤ t.year ∧ t.year ≤ 9999) (hmo : 1 ≤ t.month ∧ t.month ≤ 12)
    (hd : 1 ≤ t.day ∧ t.day ≤ HealthSvc.daysInMonth t.year t.month)
    (hh : t.hour < 24) (hmi : t.minute < 60) (hs : t.second < 60)
    (hus : t.microsecond < 1000000) (htz : t.tz = some 0)
    (hid : PyCodec.validUnicode docId) :
    HealthSvc.decodeCursor (HealthSvc.encodeCursor t docId) =
      .ok (t, .str docId) := by
  have hts : PyCodec.validUnicode (PyCodec.isoformat t) := by
    intro c hc
    have := isoformat_ascii t c hc
    omega
  have hdumpA : ∀ x ∈ PyCodec.dumpsCursorObj (PyCodec.isoformat t) docId,
      x < 0x80 := dumpsCursorObj_ascii _ _
  unfold HealthSvc.encodeCursor HealthSvc.decodeCursor
  rw [pyStrEncode_ascii _ (b64EncodeChunks_ascii _)]
  dsimp only
  rw [b64_roundtrip _ (fun x hx => by have := hdumpA x hx; omega)]
  dsimp only
  rw [utf8Decode_ascii _ hdumpA]
  dsimp only
  rw [jsonLoads_dumpsCursorObj (PyCodec.isoformat t) docId hts hid]
  dsimp only
  have hbeq : ((PyCodec.asciiOf "id" == PyCodec.asciiOf "timestamp") : Bool)
      = false := by decide
  have hl1 : PyCodec.jlookup (PyCodec.asciiOf "timestamp")
      [(PyCodec.asciiOf "timestamp", .str (PyCodec.isoformat t)),
       (PyCodec.asciiOf "id", .str docId)] =
      some (.str (PyCodec.isoformat t)) := by
    simp [PyCodec.jlookup, List.find?, hbeq]
  rw [hl1]
  dsimp only
  rw [fromIso_isoformat t hy hmo hd hh hmi hs hus htz]
  dsimp only
  rw [if_neg (by rw [htz]; simp)]
  have hbeq2 : ((PyCodec.asciiOf "timestamp" == PyCodec.asciiOf "id") : Bool)
      = false := by decide
  have hl2 : PyCodec.jlookup (PyCodec.asciiOf "id")
      [(PyCodec.asciiOf "timestamp", .str (PyCodec.isoformat t)),
       (PyCodec.asciiOf "id", .str docId)] = some (.str docId) := by
    simp [PyCodec.jlookup, List.find?, hbeq2]
  rw [hl2]

/-- C6 witness: the round trip at a concrete timestamp and id. -/
theorem C6_cursor_roundtrip_witness :
    HealthSvc.decodeCursor (HealthSvc.encodeCursor
        ⟨2026, 1, 8, 8, 30, 0, 0, some 0⟩ (PyCodec.asciiOf "abc123")) =
      .ok (⟨2026, 1, 8, 8, 30, 0, 0, some 0⟩, .str (PyCodec.asciiOf "abc123")) :=
  C6_cursor_roundtrip ⟨2026, 1, 8, 8, 30, 0, 0, some 0⟩ (PyCodec.asciiOf "abc123")
    (by norm_num) (by norm_num) (by constructor <;> norm_num [HealthSvc.daysInMonth])
    (by norm_num) (by norm_num) (by norm_num) (by norm_num) rfl (by decide)


section CursorErrors

open PyCodec HealthSvc

end CursorErrors

section PaginationLemmas

open PyCodec HealthSvc

theorem entriesOf_isSome :
    ∀ l : List Doc, (∀ d ∈ l, (docToResponse d).isSome) →
      ∃ es, entriesOf l = some es
  | [], _ => ⟨[], rfl⟩
  | d :: l, h => by
    obtain ⟨r, hr⟩ := Option.isSome_iff_exists.1 (h d (.head l))
    obtain ⟨es, hes⟩ := entriesOf_isSome l (fun x hx => h x (.tail d hx))
    exact ⟨r :: es, by rw [entriesOf, hr, hes]⟩

theorem exists_getLast_mem {α : Type} :
    ∀ l : List α, l ≠ [] → ∃ a, l.getLast? = some a ∧ a ∈ l
  | [a], _ => ⟨a, by simp, .head _⟩
  | a :: b :: t, _ => by
    obtain ⟨x, hx, hm⟩ := exists_getLast_mem (b :: t) (by simp)
    exact ⟨x, by rw [List.getLast?_cons_cons]; exact hx, .tail a hm⟩

theorem clamp_pos (limit : Int) :
    1 ≤ ((if limit < 1 ∨ limit > 100 then (50 : Int) else limit)).toNat := by
  split <;> omega

theorem getHealthData_all (matching : List Doc) (limit : Int) (L : Nat)
    (hL : L = ((if limit < 1 ∨ limit > 100 then (50 : Int) else limit)).toNat)
    (hle : matching.length ≤ L)
    {es : List HealthDataResponse}
    (hmap : entriesOf matching = some es) :
    getHealthData matching limit = .ok (es, none, false) := by
  unfold getHealthData
  dsimp only
  rw [← hL]
  rw [List.take_of_length_le (by omega : matching.length ≤ L + 1)]
  rw [decide_eq_false (by omega : ¬ L < matching.length)]
  rw [if_neg (by simp : ¬ ((false : Bool) = true))]
  rw [hmap]
  rfl

theorem getHealthData_all_err (matching : List Doc) (limit : Int) (L : Nat)
    (hL : L = ((if limit < 1 ∨ limit > 100 then (50 : Int) else limit)).toNat)
    (hle : matching.length ≤ L)
    (hmap : entriesOf matching = none) :
    getHealthData matching limit = .error () := by
  unfold getHealthData
  dsimp only
  rw [← hL]
  rw [List.take_of_length_le (by omega : matching.length ≤ L + 1)]
  rw [decide_eq_false (by omega : ¬ L < matching.length)]
  rw [if_neg (by simp : ¬ ((false : Bool) = true))]
  rw [hmap]

theorem getHealthData_more_dt (matching : List Doc) (limit : Int) (L : Nat)
    (hL : L = ((if limit < 1 ∨ limit > 100 then (50 : Int) else limit)).toNat)
    (hlt : L < matching.length)
    {es : List HealthDataResponse} {dlast : Doc} {t : Datetime}
    (hmap : entriesOf (matching.take L) = some es)
    (hlast : (matching.take L).getLast? = some dlast)
    (ht : dlast.timestamp = TsField.dt t) :
    getHealthData matching limit =
      .ok (es,
        some (encodeCursor
          (if t.tz = none then { t with tz := some (0 : Int) } else t)
          dlast.id),
        true) := by
  unfold getHealthData
  dsimp only
  rw [← hL]
  rw [decide_eq_true (by rw [List.length_take]; omega :
        L < (matching.take (L + 1)).length)]
  rw [if_pos (rfl : (true : Bool) = true)]
  rw [List.take_take]
  rw [(by omega : min L (L + 1) = L)]
  rw [hmap]
  dsimp only
  rw [hlast]
  dsimp only
  rw [ht]
  rfl

theorem getHealthData_more_nondt (matching : List Doc) (limit : Int) (L : Nat)
    (hL : L = ((if limit < 1 ∨ limit > 100 then (50 : Int) else limit)).toNat)
    (hlt : L < matching.length)
    {es : List HealthDataResponse} {dlast : Doc}
    (hmap : entriesOf (matching.take L) = some es)
    (hlast : (matching.take L).getLast? = some dlast)
    (ht : ∀ t, dlast.timestamp ≠ TsField.dt t) :
    getHealthData matching limit = .ok (es, none, true) := by
  unfold getHealthData
  dsimp only
  rw [← hL]
  rw [decide_eq_true (by rw [List.length_take]; omega :
        L < (matching.take (L + 1)).length)]
  rw [if_pos (rfl : (true : Bool) = true)]
  rw [List.take_take]
  rw [(by omega : min L (L + 1) = L)]
  rw [hmap]
  dsimp only
  rw [hlast]
  dsimp only
  cases htd : dlast.timestamp with
  | dt t => exact absurd htd (ht t)
  | nonDt c => rfl
  | absent => rfl

theorem getHealthData_more_err (matching : List Doc) (limit : Int) (L : Nat)
    (hL : L = ((if limit < 1 ∨ limit > 100 then (50 : Int) else limit)).toNat)
    (hlt : L < matching.length)
    (hmap : entriesOf (matching.take L) = none) :
    getHealthData matching limit = .error () := by
  unfold getHealthData
  dsimp only
  rw [← hL]
  rw [decide_eq_true (by rw [List.length_take]; omega :
        L < (matching.take (L + 1)).length)]
  rw [if_pos (rfl : (true : Bool) = true)]
  rw [List.take_take]
  rw [(by omega : min L (L + 1) = L)]
  rw [hmap]

theorem take_clamp_ne_nil (matching : List Doc) (limit : Int) (L : Nat)
    (hL : L = ((if limit < 1 ∨ limit > 100 then (50 : Int) else limit)).toNat)
    (hlt : L < matching.length) :
    matching.take L ≠ [] := by
  intro hnil
  have h1 := clamp_pos limit
  have h2 := congrArg List.length hnil
  rw [List.length_take] at h2
  simp only [List.length_nil] at h2
  omega

end PaginationLemmas

section PaginationClaims

open PyCodec HealthSvc

/-- C5: for every store snapshot of well-formed documents (each matching
document carries a `datetime` timestamp and validates through the
response model) and every limit, with L the clamped limit the engine
reads the length-(L+1) prefix of the stream; when the stream holds at
most L documents it returns them all with `has_more = false` and no
cursor, and when it holds more it returns the first L with
`has_more = true` and `next_cursor` the encoding of the last retained
document's (UTC-normalized timestamp, id) position. -/
theorem C5_pagination (matching : List Doc) (limit : Int)
    (hwf : ∀ d ∈ matching, (∃ t, d.timestamp = TsField.dt t) ∧
      (docToResponse d).isSome) :
    ∀ L, L = ((if limit < 1 ∨ limit > 100 then (50 : Int) else limit)).toNat →
      (matching.length ≤ L →
        ∃ entries, entriesOf matching = some entries ∧
          getHealthData matching limit = .ok (entries, none, false)) ∧
      (L < matching.length →
        ∃ entries dlast t,
          entriesOf (matching.take L) = some entries ∧
          (matching.take L).getLast? = some dlast ∧
          dlast.timestamp = TsField.dt t ∧
          getHealthData matching limit =
            .ok (entries,
              some (encodeCursor
                (if t.tz = none then { t with tz := some (0 : Int) } else t)
                dlast.id),
              true)) := by
  intro L hL
  constructor
  · intro hle
    obtain ⟨es, hmap⟩ := entriesOf_isSome matching (fun d hd => (hwf d hd).2)
    exact ⟨es, hmap, getHealthData_all matching limit L hL hle hmap⟩
  · intro hlt
    obtain ⟨es, hmap⟩ := entriesOf_isSome (matching.take L)
      (fun d hd => (hwf d (List.take_subset _ _ hd)).2)
    obtain ⟨dlast, hlast, hmem⟩ := exists_getLast_mem (matching.take L)
      (take_clamp_ne_nil matching limit L hL hlt)
    obtain ⟨t, ht⟩ := (hwf dlast (List.take_subset _ _ hmem)).1
    exact ⟨es, dlast, t, hmap, hlast, ht,
      getHealthData_more_dt matching limit L hL hlt hmap hlast ht⟩

/-- C5 witness: two well-formed documents with limit 1 exercise the
has-more branch of the theorem. -/
theorem C5_pagination_witness :
    1 ≤ ([sampleDoc, sampleDoc] : List Doc).length ∧
    (1 < ([sampleDoc, sampleDoc] : List Doc).length →
      ∃ entries dlast t,
        entriesOf ([sampleDoc, sampleDoc].take 1) = some entries ∧
        ([sampleDoc, sampleDoc].take 1).getLast? = some dlast ∧
        dlast.timestamp = TsField.dt t ∧
        getHealthData [sampleDoc, sampleDoc] 1 =
          .ok (entries,
            some (encodeCursor
              (if t.tz = none then { t with tz := some (0 : Int) } else t)
              dlast.id),
            true)) :=
  ⟨by decide,
    ((C5_pagination [sampleDoc, sampleDoc] 1
      (by
        intro d hd
        rw [List.mem_cons, List.mem_singleton] at hd
        rcases hd with rfl | rfl <;> exact ⟨⟨_, rfl⟩, by decide⟩))
      1 (by decide)).2⟩

/-- C8 counterexample: with limit 1 and a stream whose first (and only
retained) document lacks a `timestamp` field, the claim predicts a
`(entries, None, has_more=true)` return; instead
`HealthDataResponse(**data)` raises a pydantic `ValidationError` and the
call returns nothing. -/
theorem C8_counterexample :
    getHealthData [docNoTs, sampleDoc] 1 = .error () := by
  rfl

/-- C8 (amended): a non-`None` cursor still implies `has_more = true`, and
a retained stream whose last document's stored timestamp is not a
`datetime` instance but still validates does yield `has_more = true` with
`next_cursor = None`; but when the timestamp field is absent (or
otherwise fails validation) the call raises a pydantic `ValidationError`
instead of returning such a pair. -/
theorem C8_cursor_only_with_more (matching : List Doc) (limit : Int) :
    (∀ entries nc hm,
      getHealthData matching limit = .ok (entries, nc, hm) →
      nc ≠ none → hm = true) ∧
    (∀ L, L = ((if limit < 1 ∨ limit > 100 then (50 : Int) else limit)).toNat →
      L < matching.length →
      ∀ es, entriesOf (matching.take L) = some es →
      (∀ dlast, (matching.take L).getLast? = some dlast →
        ∀ t, dlast.timestamp ≠ TsField.dt t) →
      getHealthData matching limit = .ok (es, none, true)) ∧
    (∀ L, L = ((if limit < 1 ∨ limit > 100 then (50 : Int) else limit)).toNat →
      L < matching.length →
      entriesOf (matching.take L) = none →
      getHealthData matching limit = .error ()) := by
  refine ⟨?_, ?_, ?_⟩
  · intro entries nc hm h hnc
    by_cases hc :
        ((if limit < 1 ∨ limit > 100 then (50 : Int) else limit)).toNat <
          matching.length
    · cases hmap : entriesOf (matching.take
          ((if limit < 1 ∨ limit > 100 then (50 : Int) else limit)).toNat) with
      | none =>
        rw [getHealthData_more_err matching limit _ rfl hc hmap] at h
        cases h
      | some es =>
        obtain ⟨dlast, hlast, hmem⟩ := exists_getLast_mem _
          (take_clamp_ne_nil matching limit _ rfl hc)
        cases htd : dlast.timestamp with
        | dt t =>
          rw [getHealthData_more_dt matching limit _ rfl hc hmap hlast htd] at h
          rw [Except.ok.injEq, Prod.mk.injEq, Prod.mk.injEq] at h
          exact h.2.2.symm
        | nonDt c =>
          rw [getHealthData_more_nondt matching limit _ rfl hc hmap hlast
            (fun t h' => by rw [htd] at h'; cases h')] at h
          rw [Except.ok.injEq, Prod.mk.injEq, Prod.mk.injEq] at h
          exact h.2.2.symm
        | absent =>
          rw [getHealthData_more_nondt matching limit _ rfl hc hmap hlast
            (fun t h' => by rw [htd] at h'; cases h')] at h
          rw [Except.ok.injEq, Prod.mk.injEq, Prod.mk.injEq] at h
          exact h.2.2.symm
    · cases hmap : entriesOf matching with
      | none =>
        rw [getHealthData_all_err matching limit _ rfl (by omega) hmap] at h
        cases h
      | some es =>
        rw [getHealthData_all matching limit _ rfl (by omega) hmap] at h
        rw [Except.ok.injEq, Prod.mk.injEq, Prod.mk.injEq] at h
        exact absurd h.2.1.symm hnc
  · intro L hL hlt es hmap hnd
    obtain ⟨dlast, hlast, hmem⟩ := exists_getLast_mem _
      (take_clamp_ne_nil matching limit L hL hlt)
    exact getHealthData_more_nondt matching limit L hL hlt hmap hlast
      (hnd dlast hlast)
  · intro L hL hlt hmap
    exact getHealthData_more_err matching limit L hL hlt hmap

/-- C8 witness: a stream whose retained document stores its timestamp as a
coercible non-`datetime` value returns `has_more = true` with no cursor. -/
theorem C8_cursor_only_with_more_witness :
    getHealthData [docStrTs, sampleDoc] 1 =
      .ok ([⟨PyCodec.asciiOf "doc", PyCodec.asciiOf "user123",
              ⟨2026, 1, 8, 8, 30, 0, 0, some 0⟩, 1, 300, 7,
              ⟨2026, 1, 8, 8, 30, 0, 0, some 0⟩⟩],
           none, true) :=
  (C8_cursor_only_with_more [docStrTs, sampleDoc] 1).2.1 1 (by decide)
    (by decide)
    [⟨PyCodec.asciiOf "doc", PyCodec.asciiOf "user123",
        ⟨2026, 1, 8, 8, 30, 0, 0, some 0⟩, 1, 300, 7,
        ⟨2026, 1, 8, 8, 30, 0, 0, some 0⟩⟩]
    (by rfl)
    (by
      intro dlast h t ht
      rw [show (([docStrTs, sampleDoc] : List Doc).take 1).getLast? =
            some docStrTs from rfl, Option.some.injEq] at h
      subst h
      rw [show docStrTs.timestamp =
            TsField.nonDt (some ⟨2026, 1, 8, 8, 30, 0, 0, some 0⟩) from rfl] at ht
      cases ht)

set_option maxRecDepth 10000 in
/-- C1: the summary does not reduce over every matching record: the
`limit=10000` it passes is out of the [1,100] range, so `get_health_data`
silently clamps it to 50 and a 51-record store, one step per record (51
steps in total), is summarized as `total_steps = 50` — the 51st record is
dropped. -/
theorem C1_summary_truncated :
    (store51.map fun d => d.steps).sum = 51 ∧
    getHealthDataSummary store51 = .ok ⟨50, 300, 7⟩ := by
  constructor
  · decide
  · with_unfolding_all rfl

end PaginationClaims

